import Mathlib

/-!
# socketmaster: handshake codec and broker routing

A shallow embedding of `protocol/protocol.go`, `protocol/types.go`,
`server/upstream.go` and `server/server.go`.

Conventions of the embedding

* a Go `byte` is a `Fin 256`; a Go `string` (and a `[]byte`) is a list of bytes;
* a Go `int` is an `Int` (64 bit: conversions to and from `uint64` are written
  out with `% 2 ^ 64`);
* `io.Reader` is a stream of chunks: every call of `Read` is served from the
  first chunk only, so a reader may deliver fewer bytes than were asked for;
* `io.Writer` carries the bytes accepted so far and a script that says which
  of the coming calls of `Write` fail;
* the type switch of `protocol.Read` / `protocol.Write` is resolved statically:
  there is one function for each case that the handshake uses;
* the ids of the broker are `int64`: the counter `nextID` wraps around.
-/

namespace Socketmaster

/-! ## Bytes, strings, integers -/

/-- One Go byte. -/
abbrev Byte := Fin 256

/-- Go string: an immutable sequence of bytes. -/
abbrev GoString := List Byte

/-- Conversion `byte(v)` of an unsigned integer: the low eight bits. -/
def byte (v : Nat) : Byte := ⟨v % 256, Nat.mod_lt _ (by decide)⟩

/-- Conversion `uint64(t)` of a Go `int`. -/
def uint64 (t : Int) : Nat := (t % 2 ^ 64).toNat

/-- Conversion `int(u)` of a `uint64`. -/
def int (u : Nat) : Int := if u % 2 ^ 64 < 2 ^ 63 then (u % 2 ^ 64 : Nat) else (u % 2 ^ 64 : Nat) - 2 ^ 64

/-- Function `binary.BigEndian.PutUint64(data, v)` on a fresh 8 byte slice. -/
def PutUint64 (v : Nat) : List Byte :=
  [byte (v >>> 56), byte (v >>> 48), byte (v >>> 40), byte (v >>> 32),
   byte (v >>> 24), byte (v >>> 16), byte (v >>> 8), byte v]

/-- Function `binary.BigEndian.Uint64(data)`; `data` has (at least) 8 bytes. -/
def Uint64 (data : List Byte) : Nat :=
  (data.getD 7 0).val ||| (data.getD 6 0).val <<< 8 ||| (data.getD 5 0).val <<< 16 |||
  (data.getD 4 0).val <<< 24 ||| (data.getD 3 0).val <<< 32 ||| (data.getD 2 0).val <<< 40 |||
  (data.getD 1 0).val <<< 48 ||| (data.getD 0 0).val <<< 56

/-- Errors that the codec can hand to its caller. -/
inductive Error
  | EOF
  | invalidSize
  | failed (code : Nat)
  deriving DecidableEq, Repr

/-! ## Types of the protocol (`protocol/types.go`) -/

structure SocketHTTPDefinition where
  DomainSuffix : GoString
  PathPrefix : GoString
  deriving DecidableEq, Repr

structure SocketTLSDefinition where
  Cert : GoString
  Key : GoString
  deriving DecidableEq, Repr

structure SocketDefinition where
  Address : GoString
  Port : Int
  TLS : Option SocketTLSDefinition
  HTTP : Option SocketHTTPDefinition
  deriving DecidableEq, Repr

structure HandshakeRequest where
  SocketDefinition : SocketDefinition
  deriving DecidableEq, Repr

/-- Zero value of `SocketDefinition` (what `var req HandshakeRequest` holds). -/
def SocketDefinition.zero : SocketDefinition := ⟨[], 0, none, none⟩

/-! ## The reader -/

/-- State of an `io.Reader` together with the log of buffers that the decoder
asked the allocator for.  `chunks` is what the stream will still deliver: one
call of `Read` is served from the first chunk only; when no chunk is left the
stream is at its end.  `allocs` lists, oldest first, the capacities `sz` of
the calls `make([]byte, 0, sz)` that were carried out. -/
structure Reader where
  chunks : List (List Byte)
  allocs : List Nat
  deriving DecidableEq, Repr

/-- A stream that holds exactly `bs` and hands out every requested byte that
it still has (a `bytes.Reader`, or a connection whose peer sent `bs` and
closed). -/
def Reader.ofBytes (bs : List Byte) : Reader :=
  ⟨if bs = [] then [] else [bs], []⟩

/-- The reader `Reader.ofBytes bs` after some buffers were allocated. -/
def Reader.holding (bs : List Byte) (allocs : List Nat) : Reader :=
  ⟨if bs = [] then [] else [bs], allocs⟩

/-- A stream that delivers the given chunks one call at a time. -/
def Reader.ofChunks (cs : List (List Byte)) : Reader := ⟨cs, []⟩

/-- All the bytes that the stream will still deliver. -/
def Reader.remaining (r : Reader) : List Byte := r.chunks.flatten

/-- One call `r.Read(data)` with `len(data) = n > 0`: the bytes copied into
`data`, the error, and the reader afterwards. -/
def Reader.Read (r : Reader) (n : Nat) : List Byte × Option Error × Reader :=
  match r.chunks with
  | [] => ([], some Error.EOF, r)
  | c :: cs =>
    if n < c.length then (c.take n, none, { r with chunks := c.drop n :: cs })
    else (c, none, { r with chunks := cs })

/-- The contents of a zeroed buffer `make([]byte, n)` after `got` was copied
to its front. -/
def fillBuffer (n : Nat) (got : List Byte) : List Byte :=
  got ++ List.replicate (n - got.length) 0

/-- Function `io.CopyN(buf, r, n)` into a `bytes.Buffer`: it keeps reading until
`n` bytes arrived or the stream ended; it returns `io.EOF` when the stream ends
early.  The result does not depend on the sizes of the single requests, which
are here always the number of bytes still missing. -/
def CopyN : List (List Byte) → Nat → List Byte × Option Error × List (List Byte)
  | cs, 0 => ([], none, cs)
  | [], _ + 1 => ([], some Error.EOF, [])
  | c :: cs, n + 1 =>
    if n + 1 < c.length then (c.take (n + 1), none, c.drop (n + 1) :: cs)
    else
      match CopyN cs (n + 1 - c.length) with
      | (more, err, cs') => (c ++ more, err, cs')

/-- Result of a decoding function: it returns to its caller with the value now
stored in the destination, an error (or nil) and the reader, or it panics. -/
inductive Res (α : Type)
  | ret (val : α) (err : Option Error) (r : Reader)
  | panic
  deriving DecidableEq, Repr

/-- Case `*int` of `Read`: a single call of `r.Read` on an 8 byte buffer whose
byte count is dropped; the destination is set only when `err == nil`. -/
def Read_int (r : Reader) (t : Int) : Int × Option Error × Reader :=
  match r.Read 8 with
  | (got, none, r') => (int (Uint64 (fillBuffer 8 got)), none, r')
  | (_, some e, r') => (t, some e, r')

/-- Case `*byte` of `Read`. -/
def Read_byte (r : Reader) (t : Byte) : Byte × Option Error × Reader :=
  match r.Read 1 with
  | (got, none, r') => ((fillBuffer 1 got).getD 0 0, none, r')
  | (_, some e, r') => (t, some e, r')

/-- Case `*string` of `Read` (the case `*[]byte` has the same body), in a
runtime that has the memory for every buffer it is asked for.  `maxAlloc` is
the largest capacity that the Go runtime accepts in `make([]byte, 0, sz)`; a
negative or larger `sz` makes `make` panic.  `Read_string_in` below is the same
case in a runtime whose memory is limited. -/
def Read_string (maxAlloc : Nat) (r : Reader) (t : GoString) : Res GoString :=
  match Read_int r 0 with
  | (_, some e, r1) => .ret t (some e) r1
  | (sz, none, r1) =>
    if sz < 0 ∨ (maxAlloc : Int) < sz then .panic
    else
      match CopyN r1.chunks sz.toNat with
      | (_, some e, cs) => .ret t (some e) ⟨cs, r1.allocs ++ [sz.toNat]⟩
      | (buf, none, cs) =>
        if (buf.length : Int) ≠ sz then .ret t (some Error.invalidSize) ⟨cs, r1.allocs ++ [sz.toNat]⟩
        else .ret buf none ⟨cs, r1.allocs ++ [sz.toNat]⟩

/-- Case `*[]byte` of `Read`, in a runtime that has the memory for every buffer
it is asked for; see `Read_bytes_in`. -/
def Read_bytes (maxAlloc : Nat) (r : Reader) (t : List Byte) : Res (List Byte) :=
  match Read_int r 0 with
  | (_, some e, r1) => .ret t (some e) r1
  | (sz, none, r1) =>
    if sz < 0 ∨ (maxAlloc : Int) < sz then .panic
    else
      match CopyN r1.chunks sz.toNat with
      | (_, some e, cs) => .ret t (some e) ⟨cs, r1.allocs ++ [sz.toNat]⟩
      | (buf, none, cs) =>
        if (buf.length : Int) ≠ sz then .ret t (some Error.invalidSize) ⟨cs, r1.allocs ++ [sz.toNat]⟩
        else .ret buf none ⟨cs, r1.allocs ++ [sz.toNat]⟩

/-- What the decoder meets of the Go runtime in `make([]byte, 0, sz)`:
`maxAlloc` is the largest capacity that `makeslice` accepts (a negative or
larger `sz` panics), and `grants n` says whether the allocator has the memory
for a buffer of capacity `n`; if it has not, the runtime ends the process with
`fatal error: out of memory`, which is neither a return nor a panic. -/
structure Runtime where
  maxAlloc : Nat
  grants : Nat → Bool

/-- What becomes of a call in a runtime whose memory is limited: the call ends
as `Res` says (it returns or panics), or the runtime ends the process because
it is out of memory. -/
inductive Outcome (α : Type)
  | ended (res : Res α)
  | outOfMemory
  deriving DecidableEq, Repr

/-- Case `*string` of `Read` in the runtime `rt`: the buffer of the announced
capacity is asked for before a single byte of the string is read. -/
def Read_string_in (rt : Runtime) (r : Reader) (t : GoString) : Outcome GoString :=
  match Read_int r 0 with
  | (_, some e, r1) => .ended (.ret t (some e) r1)
  | (sz, none, r1) =>
    if sz < 0 ∨ (rt.maxAlloc : Int) < sz then .ended .panic
    else if rt.grants sz.toNat = false then .outOfMemory
    else
      match CopyN r1.chunks sz.toNat with
      | (_, some e, cs) => .ended (.ret t (some e) ⟨cs, r1.allocs ++ [sz.toNat]⟩)
      | (buf, none, cs) =>
        if (buf.length : Int) ≠ sz then
          .ended (.ret t (some Error.invalidSize) ⟨cs, r1.allocs ++ [sz.toNat]⟩)
        else .ended (.ret buf none ⟨cs, r1.allocs ++ [sz.toNat]⟩)

/-- Case `*[]byte` of `Read` in the runtime `rt`. -/
def Read_bytes_in (rt : Runtime) (r : Reader) (t : List Byte) : Outcome (List Byte) :=
  match Read_int r 0 with
  | (_, some e, r1) => .ended (.ret t (some e) r1)
  | (sz, none, r1) =>
    if sz < 0 ∨ (rt.maxAlloc : Int) < sz then .ended .panic
    else if rt.grants sz.toNat = false then .outOfMemory
    else
      match CopyN r1.chunks sz.toNat with
      | (_, some e, cs) => .ended (.ret t (some e) ⟨cs, r1.allocs ++ [sz.toNat]⟩)
      | (buf, none, cs) =>
        if (buf.length : Int) ≠ sz then
          .ended (.ret t (some Error.invalidSize) ⟨cs, r1.allocs ++ [sz.toNat]⟩)
        else .ended (.ret buf none ⟨cs, r1.allocs ++ [sz.toNat]⟩)

/-- The call `Read(r, &a, &b)` with two `*string` destinations: the loop over
the destinations stops at the first error. -/
def Read_string_string (maxAlloc : Nat) (r : Reader) (a b : GoString) :
    Res (GoString × GoString) :=
  match Read_string maxAlloc r a with
  | .panic => .panic
  | .ret a' (some e) r1 => .ret (a', b) (some e) r1
  | .ret a' none r1 =>
    match Read_string maxAlloc r1 b with
    | .panic => .panic
    | .ret b' err r2 => .ret (a', b') err r2

/-- The call `Read(r, &t.Address, &t.Port, &flags)`: the loop over the
destinations stops at the first error. -/
def Read_string_int_byte (maxAlloc : Nat) (r : Reader) (a : GoString) (p : Int) (f : Byte) :
    Res (GoString × Int × Byte) :=
  match Read_string maxAlloc r a with
  | .panic => .panic
  | .ret a' (some e) r1 => .ret (a', p, f) (some e) r1
  | .ret a' none r1 =>
    match Read_int r1 p with
    | (p', some e, r2) => .ret (a', p', f) (some e) r2
    | (p', none, r2) =>
      match Read_byte r2 f with
      | (f', err, r3) => .ret (a', p', f') err r3

/-- The part `// decode HTTP` of the case `*SocketDefinition`. -/
def decodeHTTP (maxAlloc : Nat) (flags : Byte) (t : SocketDefinition) (err : Option Error)
    (r : Reader) : Res SocketDefinition :=
  if err = none then
    if flags.val &&& (1 <<< 0) ≠ 0 then
      match Read_string_string maxAlloc r [] [] with
      | .panic => .panic
      | .ret (d, p) err' r' => .ret { t with HTTP := some ⟨d, p⟩ } err' r'
    else .ret t err r
  else .ret t err r

/-- The part `// decode TLS` of the case `*SocketDefinition`. -/
def decodeTLS (maxAlloc : Nat) (flags : Byte) (t : SocketDefinition) (err : Option Error)
    (r : Reader) : Res SocketDefinition :=
  if err = none then
    if flags.val &&& (1 <<< 1) ≠ 0 then
      match Read_string_string maxAlloc r [] [] with
      | .panic => .panic
      | .ret (c, k) err' r' => .ret { t with TLS := some ⟨c, k⟩ } err' r'
    else .ret t err r
  else .ret t err r

/-- Case `*SocketDefinition` of `Read`. -/
def Read_SocketDefinition (maxAlloc : Nat) (r : Reader) (t : SocketDefinition) :
    Res SocketDefinition :=
  match Read_string_int_byte maxAlloc r t.Address t.Port 0 with
  | .panic => .panic
  | .ret (a, p, flags) err r1 =>
    match decodeHTTP maxAlloc flags { t with Address := a, Port := p } err r1 with
    | .panic => .panic
    | .ret t2 err2 r2 => decodeTLS maxAlloc flags t2 err2 r2

/-- Function `ReadHandshakeRequest`. -/
def ReadHandshakeRequest (maxAlloc : Nat) (r : Reader) : Res HandshakeRequest :=
  match Read_SocketDefinition maxAlloc r SocketDefinition.zero with
  | .panic => .panic
  | .ret t err r' => .ret ⟨t⟩ err r'

/-! ## The writer -/

/-- State of an `io.Writer`: the bytes it accepted so far and, for the coming
calls of `Write`, whether the call fails (`some e`) or not (`none`); calls
after the end of the script succeed. -/
structure Writer where
  out : List Byte
  script : List (Option Error)
  deriving DecidableEq, Repr

/-- A writer none of whose coming calls fails. -/
def Writer.neverFails (w : Writer) : Prop := ∀ x ∈ w.script, x = none

instance (w : Writer) : Decidable w.neverFails :=
  inferInstanceAs (Decidable (∀ x ∈ w.script, x = none))

/-- One call `w.Write(data)`: a failing call accepts nothing. -/
def Writer.Write (w : Writer) (data : List Byte) : Option Error × Writer :=
  match w.script with
  | [] => (none, { w with out := w.out ++ data })
  | none :: rest => (none, ⟨w.out ++ data, rest⟩)
  | some e :: rest => (some e, ⟨w.out, rest⟩)

/-- Size of the buffer that `io.Copy` allocates. -/
def copyBufferSize : Nat := 32 * 1024

/-- The loop of `io.Copy(w, io.LimitReader(src, n))` for a source that holds
`data` with `n = len(data)`: the data is handed to `w.Write` in pieces of at
most `copyBufferSize` bytes, and the first failing call ends the loop.  Nothing
is written for empty data.  `fuel` bounds the number of rounds. -/
def copyLoop : Nat → Writer → List Byte → Option Error × Writer
  | 0, w, _ => (none, w)
  | fuel + 1, w, data =>
    if data = [] then (none, w)
    else
      match w.Write (data.take copyBufferSize) with
      | (some e, w') => (some e, w')
      | (none, w') => copyLoop fuel w' (data.drop copyBufferSize)

/-- Function `io.CopyN(w, strings.NewReader(t), int64(len(t)))`. -/
def CopyN_Writer (w : Writer) (t : List Byte) : Option Error × Writer :=
  copyLoop t.length w t

/-- Case `byte` of `Write`. -/
def Write_byte (w : Writer) (t : Byte) : Option Error × Writer :=
  w.Write [t]

/-- Case `int` of `Write`. -/
def Write_int (w : Writer) (t : Int) : Option Error × Writer :=
  w.Write (PutUint64 (uint64 t))

/-- Case `string` of `Write` (the case `[]byte` has the same body). -/
def Write_string (w : Writer) (t : GoString) : Option Error × Writer :=
  match Write_int w t.length with
  | (none, w1) => CopyN_Writer w1 t
  | (some e, w1) => (some e, w1)

/-- The call `Write(w, a, b)` with two strings.  The loop over the arguments
has no exit: every argument is written, and `err` is what the last one
returned. -/
def Write_string_string (w : Writer) (a b : GoString) : Option Error × Writer :=
  match Write_string w a with
  | (_, w1) => Write_string w1 b

/-- The call `Write(w, t.Address, t.Port, flags)`; see `Write_string_string`. -/
def Write_string_int_byte (w : Writer) (a : GoString) (p : Int) (f : Byte) :
    Option Error × Writer :=
  match Write_string w a with
  | (_, w1) =>
    match Write_int w1 p with
    | (_, w2) => Write_byte w2 f

/-- The flags byte that the case `SocketDefinition` of `Write` computes. -/
def flagsOf (t : SocketDefinition) : Byte :=
  let flags : Nat := 0
  let flags := if t.HTTP.isSome then flags ||| (1 <<< 0) else flags
  let flags := if t.TLS.isSome then flags ||| (1 <<< 1) else flags
  byte flags

/-- Case `SocketDefinition` of `Write`. -/
def Write_SocketDefinition (w : Writer) (t : SocketDefinition) : Option Error × Writer :=
  match Write_string_int_byte w t.Address t.Port (flagsOf t) with
  | (err, w1) =>
    let r2 : Option Error × Writer :=
      if err = none then
        match t.HTTP with
        | some h => Write_string_string w1 h.DomainSuffix h.PathPrefix
        | none => (err, w1)
      else (err, w1)
    if r2.1 = none then
      match t.TLS with
      | some c => Write_string_string r2.2 c.Cert c.Key
      | none => r2
    else r2

/-- Function `WriteHandshakeRequest`. -/
def WriteHandshakeRequest (w : Writer) (req : HandshakeRequest) : Option Error × Writer :=
  Write_SocketDefinition w req.SocketDefinition

/-- The bytes that `WriteHandshakeRequest` puts on a writer that accepts
everything. -/
def encode (s : SocketDefinition) : List Byte :=
  (WriteHandshakeRequest ⟨[], []⟩ ⟨s⟩).2.out

/-! ## The wire format in the words of the specification -/

/-- Encoding `int` of the specification: 8 bytes, big-endian, two's complement. -/
def encInt (i : Int) : List Byte :=
  (List.range 8).map fun k => byte ((i % 2 ^ 64).toNat / 256 ^ (7 - k))

/-- Encoding `string` of the specification: the length as an `int`, then the bytes. -/
def encString (s : GoString) : List Byte :=
  encInt s.length ++ s

/-- The strings that a socket definition carries. -/
def SocketDefinition.strings (s : SocketDefinition) : List GoString :=
  s.Address ::
    ((match s.HTTP with
      | some h => [h.DomainSuffix, h.PathPrefix]
      | none => []) ++
     (match s.TLS with
      | some c => [c.Cert, c.Key]
      | none => []))

/-- A socket definition that a Go program can hold: the port is a 64 bit `int`
and no string is longer than the runtime allows a slice to be. -/
def SocketDefinition.WF (maxAlloc : Nat) (s : SocketDefinition) : Prop :=
  -2 ^ 63 ≤ s.Port ∧ s.Port < 2 ^ 63 ∧ ∀ x ∈ s.strings, x.length ≤ maxAlloc

instance (maxAlloc : Nat) (s : SocketDefinition) : Decidable (s.WF maxAlloc) :=
  inferInstanceAs (Decidable (-2 ^ 63 ≤ s.Port ∧ s.Port < 2 ^ 63 ∧ ∀ x ∈ s.strings, x.length ≤ maxAlloc))

/-- The fields that the specification sends when `flags & 0x01` is set. -/
def httpFields (s : SocketDefinition) : List Byte :=
  match s.HTTP with
  | some h => encString h.DomainSuffix ++ encString h.PathPrefix
  | none => []

/-- The fields that the specification sends when `flags & 0x02` is set. -/
def tlsFields (s : SocketDefinition) : List Byte :=
  match s.TLS with
  | some c => encString c.Cert ++ encString c.Key
  | none => []

/-- Encoding `socket definition` of the specification, for a given flags byte:
`string` address, `int` port, `byte` flags, then the optional groups. -/
def wireLayout (s : SocketDefinition) (flags : Byte) : List Byte :=
  encString s.Address ++ encInt s.Port ++ [flags] ++ httpFields s ++ tlsFields s

/-- A socket definition with both optional groups, used to instantiate the
statements below. -/
def sampleDefinition : SocketDefinition :=
  ⟨[49, 50, 55], 8999, some ⟨[1, 2], []⟩, some ⟨[], [47, 97, 47]⟩⟩

/-- The worker of the repository's first test: no HTTP predicate, no TLS. -/
def plainDefinition : SocketDefinition :=
  ⟨[49, 50, 55, 46, 48, 46, 48, 46, 49], 8999, none, none⟩

/-- A worker that takes every request of its endpoint: HTTP predicate with
empty domain suffix and empty path prefix. -/
def catchAllDefinition : SocketDefinition :=
  ⟨[49, 50, 55, 46, 48, 46, 48, 46, 49], 8999, none, some ⟨[], []⟩⟩

/-! ## The broker (`server/config.go`, `server/upstream.go`, `server/server.go`)

A Go map is represented by the list of its values in the order in which a
`range` loop visits them; the key of a value is its `id`, as it is at the only
places that insert (`s.upstream[upstream.id] = upstream` and
`upstream.downstream[downstream.id] = downstream`).  `delete(m, id)` removes
what is stored under `id`.  Listeners and workers are pointers in the source;
here a function that mutates one returns the new value. -/

/-- A `time.Time`, in nanoseconds after the zero time. -/
abbrev Time := Int

/-- A `time.Duration`, in nanoseconds. -/
abbrev Duration := Int

def Millisecond : Duration := 1000000

def Second : Duration := 1000 * Millisecond

/-- The variable `zeroTime`. -/
def zeroTime : Time := 0

/-- Type `Config` (the logger is left out). -/
structure Config where
  MissingRouteTimeout : Duration
  EmptyListenerTimeout : Duration
  deriving DecidableEq, Repr

/-- Function `DefaultConfig`. -/
def DefaultConfig : Config :=
  { MissingRouteTimeout := Second * 30, EmptyListenerTimeout := Second * 30 }

/-- The identity of a `*yamux.Session`. -/
abbrev Session := Nat

/-- A `*yamux.Stream`. -/
structure Stream where
  id : Nat
  session : Session
  deriving DecidableEq, Repr

/-- What the broker can observe of the multiplexer library: the sessions that
are shut down (`IsClosed()` is true), the sessions whose peer has gone away
without the session being shut down yet (`OpenStream` fails on them), and the
streams that were opened and not closed. -/
structure Yamux where
  closed : List Session
  unreachable : List Session
  streams : List Stream
  nextStream : Nat
  deriving DecidableEq, Repr

/-- Method `session.IsClosed()`. -/
def Yamux.IsClosed (y : Yamux) (s : Session) : Bool := decide (s ∈ y.closed)

/-- Method `session.Close()`: idempotent; it ends the streams of the session. -/
def Yamux.Close (y : Yamux) (s : Session) : Yamux :=
  if s ∈ y.closed then y
  else { y with closed := s :: y.closed, streams := y.streams.filter fun st => st.session ≠ s }

/-- Method `session.OpenStream()`: the new stream, or `none` for an error. -/
def Yamux.OpenStream (y : Yamux) (s : Session) : Option Stream × Yamux :=
  if s ∈ y.closed ∨ s ∈ y.unreachable then (none, y)
  else
    (some ⟨y.nextStream, s⟩,
      { y with streams := y.streams ++ [⟨y.nextStream, s⟩], nextStream := y.nextStream + 1 })

/-- Method `stream.Close()`. -/
def Yamux.CloseStream (y : Yamux) (st : Stream) : Yamux :=
  { y with streams := y.streams.filter fun x => x ≠ st }

/-- A parsed certificate (`tls.Certificate`). -/
abbrev Certificate := Nat

/-- Type `downstreamConnection`. -/
structure downstreamConnection where
  id : Int
  session : Session
  socketDefinition : SocketDefinition
  deriving DecidableEq, Repr

/-- Type `upstreamListener`.  `listener` says whether `u.listener != nil`,
`tlsConfig` holds the certificate list of the `tls.Config` (or `none` for nil),
`config` is `u.server.config`. -/
structure upstreamListener where
  config : Config
  id : Int
  listener : Bool
  downstream : List downstreamConnection
  address : GoString
  port : Int
  tlsConfig : Option (List Certificate)
  lastUpdateTime : Time
  deriving DecidableEq, Repr

/-- Type `Server`. -/
structure Server where
  upstream : List upstreamListener
  nextID : Int
  config : Config
  deriving DecidableEq, Repr

/-- Statement `delete(u.downstream, id)`. -/
def deleteDownstream (m : List downstreamConnection) (id : Int) : List downstreamConnection :=
  m.filter fun d => d.id ≠ id

/-- Statement `delete(s.upstream, id)`. -/
def deleteUpstream (m : List upstreamListener) (id : Int) : List upstreamListener :=
  m.filter fun u => u.id ≠ id

/-- Method `upstreamListener.update`, at time `now`, on a listener that is open;
`X509KeyPair` is the parser `tls.X509KeyPair` (`none` for an error).  The log
line of the source calls `u.listener.Addr()`: on a listener that `close` has
set to nil the source panics there, so what is said below about a state after
`update` is said for listeners with `listener = true`. -/
def upstreamListener.update (X509KeyPair : GoString → GoString → Option Certificate)
    (now : Time) (u : upstreamListener) : upstreamListener :=
  let certs := u.downstream.foldl
    (fun certs d =>
      match d.socketDefinition.TLS with
      | some t =>
        match X509KeyPair t.Cert t.Key with
        | some cert => certs ++ [cert]
        | none => certs
      | none => certs) []
  { u with
    tlsConfig := if certs.length > 0 then some certs else none
    lastUpdateTime := now }

/-- Method `upstreamListener.close`. -/
def upstreamListener.close (u : upstreamListener) : upstreamListener :=
  if u.listener then { u with listener := false } else u

/-- What `route` and `routeHTTP` read of a `*http.Request`. -/
structure Request where
  Host : GoString
  Path : GoString
  deriving DecidableEq, Repr

/-- Function `strings.HasPrefix`. -/
def HasPrefix (s pre : GoString) : Bool :=
  decide (s.length ≥ pre.length) && decide (s.take pre.length = pre)

/-- Function `strings.HasSuffix`. -/
def HasSuffix (s suffix : GoString) : Bool :=
  decide (s.length ≥ suffix.length) && decide (s.drop (s.length - suffix.length) = suffix)

/-- The loop of `findDownstream` over the workers in iteration order. -/
def findDownstreamIn (req : Request) : List downstreamConnection → Option downstreamConnection
  | [] => none
  | d :: ds =>
    match d.socketDefinition.HTTP with
    | some h =>
      if HasSuffix req.Host h.DomainSuffix && HasPrefix req.Path h.PathPrefix then some d
      else findDownstreamIn req ds
    | none => findDownstreamIn req ds

/-- Method `upstreamListener.findDownstream`. -/
def upstreamListener.findDownstream (u : upstreamListener) (req : Request) :
    Option downstreamConnection :=
  findDownstreamIn req u.downstream

/-- The predicate of the specification: the worker has an HTTP predicate whose
domain suffix ends the host and whose path prefix starts the path. -/
def Matches (req : Request) (d : downstreamConnection) : Prop :=
  ∃ h, d.socketDefinition.HTTP = some h ∧ h.DomainSuffix <:+ req.Host ∧ h.PathPrefix <+: req.Path

/-! ### `route` without an HTTP worker -/

/-- How a call of `route` ends for the inbound connection. -/
inductive RouteOutcome
  /-- The connection was handed to `routeHTTP`. -/
  | http
  /-- A stream was opened on the worker and the two copiers were started. -/
  | spliced (d : downstreamConnection) (stream : Stream)
  /-- No candidate: `conn.Close()`. -/
  | connClosed
  /-- The `for` loop is still running when the fuel is used up. -/
  | looping
  deriving DecidableEq, Repr

/-- The state that a call of `route` leaves behind; `attempts` lists, oldest
first, the sessions on which `OpenStream` was called. -/
structure RouteResult where
  outcome : RouteOutcome
  u : upstreamListener
  yamux : Yamux
  attempts : List Session
  deriving DecidableEq, Repr

/-- The `for` loop of `route`; each unit of fuel pays for one round.  The
slice `candidates` is never changed by the loop. -/
def routeLoop (X509KeyPair : GoString → GoString → Option Certificate) (now : Time) :
    Nat → upstreamListener → Yamux → List downstreamConnection → List Session → RouteResult
  | 0, u, y, _, attempts => ⟨.looping, u, y, attempts⟩
  | fuel + 1, u, y, candidates, attempts =>
    match candidates with
    | [] => ⟨.connClosed, u, y, attempts⟩
    | d :: _ =>
      match y.OpenStream d.session with
      | (some stream, y') => ⟨.spliced d stream, u, y', attempts ++ [d.session]⟩
      | (none, y') =>
        routeLoop X509KeyPair now fuel
          (({ u with downstream := deleteDownstream u.downstream d.id }).update X509KeyPair now)
          (y'.Close d.session) candidates (attempts ++ [d.session])

/-- Method `upstreamListener.route` (the TLS wrapping of the connection is left
out). -/
def upstreamListener.route (X509KeyPair : GoString → GoString → Option Certificate)
    (now : Time) (fuel : Nat) (u : upstreamListener) (y : Yamux) : RouteResult :=
  let useHTTP := u.downstream.foldl
    (fun useHTTP d => if d.socketDefinition.HTTP.isSome then true else useHTTP) false
  let candidates := u.downstream
  if useHTTP then ⟨.http, u, y, []⟩
  else routeLoop X509KeyPair now fuel u y candidates []

/-! ### The reaper of `Serve` -/

/-- The loop of the reaper over the workers of one listener: the listener
afterwards and the flag `changed`. -/
def evict (y : Yamux) (u : upstreamListener) : upstreamListener × Bool :=
  u.downstream.foldl
    (fun (acc : upstreamListener × Bool) d =>
      if y.IsClosed d.session then
        ({ acc.1 with downstream := deleteDownstream acc.1.downstream d.id }, true)
      else acc)
    (u, false)

/-- The body of the reaper's loop for one listener: the listener afterwards,
and whether it is closed and deleted from the index.  The clock stands still
during the tick: `now` is what `time.Now()` returns in `update` and in the
comparison. -/
def sweepListener (X509KeyPair : GoString → GoString → Option Certificate) (now : Time)
    (y : Yamux) (u : upstreamListener) : upstreamListener × Bool :=
  match evict y u with
  | (u1, changed) =>
    let u2 := if changed then u1.update X509KeyPair now else u1
    if u2.downstream.length = 0 ∧ u2.lastUpdateTime > zeroTime ∧
        u2.lastUpdateTime + Second * 30 < now then (u2, true)
    else (u2, false)

/-- What one tick of the reaper leaves behind: the broker, and the listeners
that were handed to `go u.close()`. -/
structure SweepResult where
  server : Server
  closed : List upstreamListener
  deriving DecidableEq, Repr

/-- One tick of the reaper in `Serve`, at time `now`. -/
def Server.sweep (X509KeyPair : GoString → GoString → Option Certificate) (now : Time)
    (y : Yamux) (s : Server) : SweepResult :=
  let visited := s.upstream.map (sweepListener X509KeyPair now y)
  let upstream := visited.foldl
    (fun m v => if v.2 then deleteUpstream m v.1.id else m) (visited.map fun v => v.1)
  ⟨{ s with upstream := upstream }, (visited.filter fun v => v.2).map fun v => v.1.close⟩

/-- Every listener of the index is open (`u.listener != nil`): `close` has not
been called on it.  The accept loop of a listener that ends calls `close`
before it deletes the listener from the index, so a closed listener can be in
the index for a moment; a tick of the reaper that has to evict a worker of
such a listener panics in `update`. -/
def Server.listenersOpen (s : Server) : Prop :=
  ∀ u ∈ s.upstream, u.listener = true

instance (s : Server) : Decidable s.listenersOpen :=
  inferInstanceAs (Decidable (∀ u ∈ s.upstream, u.listener = true))

/-- The maps of the broker are maps: no two listeners of the index have the
same id, and no two workers of one registry have the same id. -/
def Server.WF (s : Server) : Prop :=
  (s.upstream.map upstreamListener.id).Nodup ∧
    ∀ u ∈ s.upstream, (u.downstream.map downstreamConnection.id).Nodup

instance (s : Server) : Decidable s.WF :=
  inferInstanceAs (Decidable ((s.upstream.map upstreamListener.id).Nodup ∧
    ∀ u ∈ s.upstream, (u.downstream.map downstreamConnection.id).Nodup))

/-! ### `routeHTTP`: waiting for a route -/

/-- The fields of a `http.Response` that `routeHTTP` sets. -/
structure Response where
  Status : GoString
  StatusCode : Nat
  Proto : GoString
  ProtoMajor : Nat
  ProtoMinor : Nat
  Body : GoString
  ContentLength : Int
  deriving DecidableEq, Repr

/-- The string `"Not Found"`. -/
def msgNotFound : GoString := [78, 111, 116, 32, 70, 111, 117, 110, 100]

/-- The response that `routeHTTP` writes when the deadline has passed: status
`"404 Not Found"`, protocol `"HTTP/1.1"`. -/
def notFoundResponse : Response :=
  { Status := [52, 48, 52, 32, 78, 111, 116, 32, 70, 111, 117, 110, 100]
    StatusCode := 404
    Proto := [72, 84, 84, 80, 47, 49, 46, 49]
    ProtoMajor := 1
    ProtoMinor := 1
    Body := msgNotFound
    ContentLength := msgNotFound.length }

/-- State of one call of `routeHTTP`: the listener, the multiplexer, the
clock, the variables `lastStream` and `lastSession`, and the responses written
to the inbound connection. -/
structure HTTPState where
  u : upstreamListener
  yamux : Yamux
  now : Time
  lastStream : Option Stream
  lastSession : Option Session
  written : List Response
  deriving DecidableEq, Repr

/-- How the inner `for` loop of `routeHTTP` ends. -/
inductive FindResult
  /-- The 404 response was written and `routeHTTP` returned. -/
  | notFound
  /-- A stream to the worker was opened (`break`). -/
  | found (d : downstreamConnection)
  /-- The loop is still running when the fuel is used up. -/
  | polling
  deriving DecidableEq, Repr

/-- The inner `for` loop of `routeHTTP` for the request `req`; each unit of
fuel pays for one round.  The clock advances only in `time.Sleep`, by the
100 ms asked for, and the registry changes only through this loop. -/
def findLoop (X509KeyPair : GoString → GoString → Option Certificate) (req : Request)
    (deadline : Time) : Nat → HTTPState → FindResult × HTTPState
  | 0, st => (.polling, st)
  | fuel + 1, st =>
    match st.u.findDownstream req with
    | none =>
      if st.now > deadline then
        (.notFound, { st with written := st.written ++ [notFoundResponse] })
      else findLoop X509KeyPair req deadline fuel { st with now := st.now + Millisecond * 100 }
    | some d =>
      let y1 :=
        match st.lastStream with
        | some last => if some d.session ≠ st.lastSession then st.yamux.CloseStream last else st.yamux
        | none => st.yamux
      match y1.OpenStream d.session with
      | (some stream, y2) =>
        (.found d, { st with yamux := y2, lastStream := some stream, lastSession := some d.session })
      | (none, y2) =>
        findLoop X509KeyPair req deadline fuel
          { st with
            u := ({ st.u with downstream := deleteDownstream st.u.downstream d.id }).update
              X509KeyPair st.now
            yamux := y2.Close d.session
            lastStream := none
            lastSession := none }

/-- The part of `routeHTTP` from `deadline := time.Now().Add(time.Second * 30)`
to the end of the inner loop. -/
def awaitRoute (X509KeyPair : GoString → GoString → Option Certificate) (fuel : Nat)
    (req : Request) (st : HTTPState) : FindResult × HTTPState :=
  findLoop X509KeyPair req (st.now + Second * 30) fuel st

/-! ### Inputs at which the statements below are evaluated -/

/-- A healthy multiplexer with no stream. -/
def idleYamux : Yamux := ⟨[], [], [], 0⟩

/-- A listener of a broker configured with `cfg` that has no worker and was
last updated at second 100. -/
def emptyListener (cfg : Config) : upstreamListener :=
  { config := cfg, id := 2, listener := true, downstream := [], address := plainDefinition.Address,
    port := 8999, tlsConfig := none, lastUpdateTime := Second * 100 }

/-- A configuration with both timeouts set to 5 s. -/
def shortConfig : Config := { MissingRouteTimeout := Second * 5, EmptyListenerTimeout := Second * 5 }

/-- Two workers without HTTP predicate: the peer of the first (session 1) has
gone away, the second (session 2) is healthy. -/
def twoWorkers : upstreamListener :=
  { config := DefaultConfig, id := 2, listener := true,
    downstream := [⟨1, 1, plainDefinition⟩, ⟨3, 2, plainDefinition⟩],
    address := plainDefinition.Address, port := 8999, tlsConfig := none,
    lastUpdateTime := Second * 100 }

/-- The multiplexer in which the peer of session 1 has gone away. -/
def firstPeerGone : Yamux := ⟨[], [1], [], 0⟩

/-- A listener whose only worker (session 1) has gone away. -/
def oneWorker : upstreamListener :=
  { twoWorkers with downstream := [⟨1, 1, plainDefinition⟩] }

/-! ### The accept loop of `Serve` -/

/-- What one call of `s.li.Accept()` returns: a temporary error, a connection,
or an error that is not temporary. -/
inductive AcceptResult
  | temporary
  | accepted
  | fatal
  deriving DecidableEq, Repr

/-- The accept loop of `Serve` for the given results of `Accept`, starting with
the value `tempDelay` of the variable of that name: the arguments of the calls
of `time.Sleep`, oldest first.  An accepted connection is handed to
`handleDownstreamConnection`, which does not touch `tempDelay`; the loop ends
with the first error that is not temporary. -/
def acceptLoop (tempDelay : Duration) : List AcceptResult → List Duration
  | [] => []
  | .temporary :: rest =>
    let tempDelay := if tempDelay = 0 then 5 * Millisecond else tempDelay * 2
    let tempDelay := if tempDelay > 1 * Second then 1 * Second else tempDelay
    tempDelay :: acceptLoop tempDelay rest
  | .accepted :: rest => acceptLoop tempDelay rest
  | .fatal :: _ => []

/-- Method `Serve` as far as its sleeps go: `var tempDelay time.Duration`
starts at zero. -/
def serveSleeps (results : List AcceptResult) : List Duration :=
  acceptLoop 0 results

/-! ### Mutations of a registry -/

/-- Statement `u.downstream[d.id] = d`. -/
def insertDownstream (m : List downstreamConnection) (d : downstreamConnection) :
    List downstreamConnection :=
  deleteDownstream m d.id ++ [d]

/-- A mutation of the registry of a listener, at a given time: a worker is
inserted, or the worker with a given id is deleted; each is followed by
`update`, as at every place of the source that mutates a registry. -/
inductive RegistryOp
  | insert (d : downstreamConnection) (now : Time)
  | remove (id : Int) (now : Time)
  deriving DecidableEq, Repr

/-- One mutation of the registry followed by `update`. -/
def upstreamListener.applyOp (X509KeyPair : GoString → GoString → Option Certificate)
    (u : upstreamListener) : RegistryOp → upstreamListener
  | .insert d now =>
    ({ u with downstream := insertDownstream u.downstream d }).update X509KeyPair now
  | .remove id now =>
    ({ u with downstream := deleteDownstream u.downstream id }).update X509KeyPair now

/-- A sequence of mutations, each followed by `update`. -/
def upstreamListener.applyOps (X509KeyPair : GoString → GoString → Option Certificate)
    (u : upstreamListener) (ops : List RegistryOp) : upstreamListener :=
  ops.foldl (upstreamListener.applyOp X509KeyPair) u

/-- The listener that `handleDownstreamConnection` creates, before the first
worker is inserted. -/
def newListener (cfg : Config) (id : Int) (address : GoString) (port : Int) :
    upstreamListener :=
  { config := cfg, id := id, listener := true, downstream := [], address := address,
    port := port, tlsConfig := none, lastUpdateTime := zeroTime }

/-- The certificate that `update` gets from a worker: the parse of its PEM
pair, if it carries TLS material and the pair parses. -/
def parseTLS (X509KeyPair : GoString → GoString → Option Certificate)
    (d : downstreamConnection) : Option Certificate :=
  match d.socketDefinition.TLS with
  | some t => X509KeyPair t.Cert t.Key
  | none => none

/-- The certificate list of the listener's TLS configuration; empty when the
configuration is nil. -/
def upstreamListener.certificates (u : upstreamListener) : List Certificate :=
  u.tlsConfig.getD []
/-- The delay that the claim on the accept backoff gives to the `i`-th (from
zero) of a run of temporary errors: 5 ms doubled `i` times, at most 1 s. -/
def backoff (i : Nat) : Duration :=
  min (5 * Millisecond * 2 ^ i) (1 * Second)

/-- The number of temporary errors among the results of `Accept` that `Serve`
gets to see (those before the first error that is not temporary). -/
def temporaryErrors : List AcceptResult → Nat
  | [] => 0
  | .temporary :: rest => temporaryErrors rest + 1
  | .accepted :: rest => temporaryErrors rest
  | .fatal :: _ => 0

/-- What `update` establishes: the TLS configuration is the list of the parsed
pairs of the registry, or nil when that list is empty. -/
def tlsInSync (X509KeyPair : GoString → GoString → Option Certificate) (u : upstreamListener) :
    Prop :=
  u.tlsConfig =
    if (u.downstream.filterMap (parseTLS X509KeyPair)).length > 0 then
      some (u.downstream.filterMap (parseTLS X509KeyPair)) else none

/-! ### `routeHTTP`: the loop over the requests of one connection -/

/-- The `for` loop of `routeHTTP` over the requests that `http.ReadRequest`
parses from the inbound connection, up to the `return`; when no request is
left `ReadRequest` fails and the loop returns.  `exchange req stream` is the
response that comes back when the request is written to the stream (`none`
for an input or output error); `fuel` is the fuel of the inner loop for each
request. -/
def routeHTTPLoop (X509KeyPair : GoString → GoString → Option Certificate)
    (exchange : Request → Stream → Option Response) (fuel : Nat) :
    List Request → HTTPState → HTTPState
  | [], st => st
  | req :: rest, st =>
    match awaitRoute X509KeyPair fuel req st with
    | (.found _, st1) =>
      match st1.lastStream with
      | some stream =>
        match exchange req stream with
        | some res =>
          routeHTTPLoop X509KeyPair exchange fuel rest
            { st1 with written := st1.written ++ [res] }
        | none => st1
      | none => st1
    | (_, st1) => st1

/-- Method `upstreamListener.routeHTTP`: the loop, then the deferred function
that closes `lastStream` when it is not nil. -/
def routeHTTP (X509KeyPair : GoString → GoString → Option Certificate)
    (exchange : Request → Stream → Option Response) (fuel : Nat) (reqs : List Request)
    (st : HTTPState) : HTTPState :=
  let st' := routeHTTPLoop X509KeyPair exchange fuel reqs st
  match st'.lastStream with
  | some last => { st' with yamux := st'.yamux.CloseStream last }
  | none => st'

/-- A listener with one healthy worker (session 1) that takes every request. -/
def catchAllListener : upstreamListener :=
  { config := DefaultConfig, id := 2, listener := true,
    downstream := [⟨1, 1, catchAllDefinition⟩],
    address := catchAllDefinition.Address, port := 8999, tlsConfig := none,
    lastUpdateTime := Second * 100 }

/-- The request `GET /` for the host `a`. -/
def sampleRequest : Request := ⟨[97], [47]⟩

/-- A worker that answers every request with status 200. -/
def okExchange : Request → Stream → Option Response :=
  fun _ _ => some ⟨[50, 48, 48, 32, 79, 75], 200, [72, 84, 84, 80, 47, 49, 46, 49], 1, 1, [97], 1⟩

/-- The two workers of the repository's test `TestHTTP`: path prefixes `/a/`
(session 1) and `/b/` (session 2), both healthy. -/
def twoRoutes : upstreamListener :=
  { config := DefaultConfig, id := 2, listener := true,
    downstream :=
      [⟨1, 1, ⟨plainDefinition.Address, 8999, none, some ⟨[], [47, 97, 47]⟩⟩⟩,
       ⟨3, 2, ⟨plainDefinition.Address, 8999, none, some ⟨[], [47, 98, 47]⟩⟩⟩],
    address := plainDefinition.Address, port := 8999, tlsConfig := none,
    lastUpdateTime := Second * 100 }

/-! ### Registrations (`New`, `handleDownstreamConnection`, `Close`) -/

/-- Conversion to `int64`: the ids are `int64`, and `s.nextID++` wraps
around. -/
def int64 (i : Int) : Int := (i + 2 ^ 63) % 2 ^ 64 - 2 ^ 63

/-- Function `New`. -/
def New (cfg : Config) : Server := ⟨[], 1, cfg⟩

/-- Statement `s.upstream[u.id] = u`. -/
def insertUpstream (m : List upstreamListener) (u : upstreamListener) : List upstreamListener :=
  deleteUpstream m u.id ++ [u]

/-- What one control connection brings to `handleDownstreamConnection`: the
result of `ReadHandshakeRequest` (`none` for an error), the result of
`yamux.Client` (`none` for an error), whether `net.Listen` on the endpoint
would succeed, and the time. -/
structure Handshake where
  request : Option HandshakeRequest
  session : Option Session
  bind : Bool
  now : Time
  deriving DecidableEq, Repr

/-- The loop of `handleDownstreamConnection` that looks for the listener of an
endpoint: the last listener of the index with this address and port. -/
def findUpstream (address : GoString) (port : Int) (m : List upstreamListener) :
    Option upstreamListener :=
  m.foldl (fun upstream u => if address = u.address ∧ port = u.port then some u else upstream)
    none

/-- The index after the listener that `findUpstream` returns (the last one
that satisfies `p`) was mutated in place by `f`. -/
def modifyLast (p : upstreamListener → Bool) (f : upstreamListener → upstreamListener) :
    List upstreamListener → List upstreamListener
  | [] => []
  | u :: rest =>
    if rest.any p then u :: modifyLast p f rest
    else if p u then f u :: rest
    else u :: rest

/-- The last two statements of `handleDownstreamConnection`:
`upstream.downstream[downstream.id] = downstream` and `upstream.update()`. -/
def register (X509KeyPair : GoString → GoString → Option Certificate) (now : Time)
    (downstream : downstreamConnection) (upstream : upstreamListener) : upstreamListener :=
  ({ upstream with downstream := insertDownstream upstream.downstream downstream }).update
    X509KeyPair now

/-- What a call of `handleDownstreamConnection` leaves behind: the broker, the
session it closed (after a failed bind), the id it gave to the worker session
and the id it gave to a new listener. -/
structure HandleResult where
  server : Server
  closedSession : Option Session
  workerId : Option Int
  listenerId : Option Int
  deriving DecidableEq, Repr

/-- Method `Server.handleDownstreamConnection`.  The worker session gets the id
`s.nextID` before the listener is looked for, so the id is used up also when
the bind fails.  A new listener is put into the index with the worker already
registered: the source inserts the pointer first and mutates the listener
afterwards, which gives the same index. -/
def handleDownstreamConnection (X509KeyPair : GoString → GoString → Option Certificate)
    (s : Server) (h : Handshake) : HandleResult :=
  match h.request with
  | none => ⟨s, none, none, none⟩
  | some req =>
    match h.session with
    | none => ⟨s, none, none, none⟩
    | some session =>
      let downstream : downstreamConnection := ⟨s.nextID, session, req.SocketDefinition⟩
      let s1 : Server := { s with nextID := int64 (s.nextID + 1) }
      match findUpstream req.SocketDefinition.Address req.SocketDefinition.Port s1.upstream with
      | none =>
        if h.bind then
          let upstream := newListener s1.config s1.nextID req.SocketDefinition.Address
            req.SocketDefinition.Port
          ⟨{ s1 with
              nextID := int64 (s1.nextID + 1)
              upstream := insertUpstream s1.upstream
                (register X509KeyPair h.now downstream upstream) },
            none, some downstream.id, some upstream.id⟩
        else ⟨s1, some session, some downstream.id, none⟩
      | some _ =>
        ⟨{ s1 with
            upstream := modifyLast
              (fun u => decide (req.SocketDefinition.Address = u.address ∧
                req.SocketDefinition.Port = u.port))
              (register X509KeyPair h.now downstream) s1.upstream },
          none, some downstream.id, none⟩

/-- Method `Server.Close`. -/
def Server.Close (s : Server) : Server := { s with upstream := [] }

/-- What happens to a broker: a control connection is handled, the reaper
ticks (seeing the sessions as `y` says), the broker is closed, or the accept
loop of the listener with the given id ends, which closes the listener and
deletes it from the index. -/
inductive BrokerOp
  | handshake (h : Handshake)
  | sweep (now : Time) (y : Yamux)
  | close
  | acceptFailed (id : Int)
  deriving DecidableEq, Repr

/-- A broker together with the record of the ids it has given out so far,
oldest first: to worker sessions and to listeners. -/
structure Broker where
  server : Server
  workerIds : List Int
  listenerIds : List Int
  deriving DecidableEq, Repr

/-- One step of a broker. -/
def Broker.step (X509KeyPair : GoString → GoString → Option Certificate) (b : Broker) :
    BrokerOp → Broker
  | .handshake h =>
    ⟨(handleDownstreamConnection X509KeyPair b.server h).server,
      b.workerIds ++ (handleDownstreamConnection X509KeyPair b.server h).workerId.toList,
      b.listenerIds ++ (handleDownstreamConnection X509KeyPair b.server h).listenerId.toList⟩
  | .sweep now y => { b with server := (b.server.sweep X509KeyPair now y).server }
  | .close => { b with server := b.server.Close }
  | .acceptFailed id =>
    { b with server := { b.server with upstream := deleteUpstream b.server.upstream id } }

/-- The broker after a sequence of steps, starting from `New(li, cfg)`. -/
def Broker.run (X509KeyPair : GoString → GoString → Option Certificate) (cfg : Config)
    (ops : List BrokerOp) : Broker :=
  ops.foldl (Broker.step X509KeyPair) ⟨New cfg, [], []⟩

/-- The endpoints of the listeners of the index. -/
def Server.endpoints (s : Server) : List (GoString × Int) :=
  s.upstream.map fun u => (u.address, u.port)

/-- What holds of a broker after `n` steps: the counter has not run over, the
ids given out are below the counter, the worker ids were given out in
increasing order, no id was given to a worker and to a listener, and the ids
in the index were given out. -/
def Broker.Inv (b : Broker) (n : Nat) : Prop :=
  1 ≤ b.server.nextID ∧ b.server.nextID ≤ 1 + 2 * (n : Int) ∧
    (∀ i ∈ b.workerIds, i < b.server.nextID) ∧
    (∀ i ∈ b.listenerIds, i < b.server.nextID) ∧
    b.workerIds.Pairwise (fun i j => i < j) ∧
    (∀ i ∈ b.workerIds, i ∉ b.listenerIds) ∧
    (∀ u ∈ b.server.upstream, u.id ∈ b.listenerIds ∧ ∀ d ∈ u.downstream, d.id ∈ b.workerIds)

/-- Three workers register: two for port 8999 (the second with a bind that
would fail, which is not tried), one for port 9000 whose bind fails. -/
def sampleOps : List BrokerOp :=
  [.handshake ⟨some ⟨plainDefinition⟩, some 1, true, Second⟩,
   .handshake ⟨some ⟨plainDefinition⟩, some 2, false, Second * 2⟩,
   .handshake ⟨some ⟨{ plainDefinition with Port := 9000 }⟩, some 3, false, Second * 3⟩,
   .sweep (Second * 4) ⟨[1], [], [], 0⟩]

/-! # Theorems -/

/-! ## Integers on the wire -/

theorem lor_shiftLeft (x b k : Nat) (h : x < 2 ^ k) : x ||| b <<< k = x + b * 2 ^ k := by
  rw [Nat.shiftLeft_eq, Nat.lor_comm, Nat.mul_comm b, ← Nat.mul_add_lt_is_or h, Nat.add_comm]

theorem Uint64_eq (b0 b1 b2 b3 b4 b5 b6 b7 : Byte) :
    Uint64 [b0, b1, b2, b3, b4, b5, b6, b7] =
      b7.val + b6.val * 2 ^ 8 + b5.val * 2 ^ 16 + b4.val * 2 ^ 24 + b3.val * 2 ^ 32 +
        b2.val * 2 ^ 40 + b1.val * 2 ^ 48 + b0.val * 2 ^ 56 := by
  have h0 := b0.isLt
  have h1 := b1.isLt
  have h2 := b2.isLt
  have h3 := b3.isLt
  have h4 := b4.isLt
  have h5 := b5.isLt
  have h6 := b6.isLt
  have h7 := b7.isLt
  simp only [Uint64, List.getD_cons_zero, List.getD_cons_succ]
  rw [lor_shiftLeft _ _ 8 (by omega), lor_shiftLeft _ _ 16 (by omega),
    lor_shiftLeft _ _ 24 (by omega), lor_shiftLeft _ _ 32 (by omega),
    lor_shiftLeft _ _ 40 (by omega), lor_shiftLeft _ _ 48 (by omega),
    lor_shiftLeft _ _ 56 (by omega)]

theorem Uint64_PutUint64 (v : Nat) : Uint64 (PutUint64 v) = v % 2 ^ 64 := by
  unfold PutUint64
  rw [Uint64_eq]
  simp only [byte, Nat.shiftRight_eq_div_pow]
  omega

theorem int_uint64 (t : Int) (h1 : -2 ^ 63 ≤ t) (h2 : t < 2 ^ 63) : int (uint64 t) = t := by
  unfold int uint64
  have e : ((t % 2 ^ 64).toNat % 2 ^ 64 : Nat) = (t % 2 ^ 64).toNat := by
    apply Nat.mod_eq_of_lt
    omega
  rw [e]
  split <;> omega

/-! ## The reader on a stream that delivers every requested byte -/

theorem PutUint64_length (v : Nat) : (PutUint64 v).length = 8 := rfl

theorem encInt_examples :
    encInt 8999 = [0, 0, 0, 0, 0, 0, 35, 39] ∧ encInt (-1) = List.replicate 8 255 ∧
      encInt (-2 ^ 63) = [128, 0, 0, 0, 0, 0, 0, 0] ∧ (encInt 9).length = 8 := by
  decide

theorem encInt_eq (i : Int) : encInt i = PutUint64 (uint64 i) := by
  simp [encInt, PutUint64, uint64, List.range, List.range.loop, Nat.shiftRight_eq_div_pow]

theorem holding_append_ne (bs rest : List Byte) (al : List Nat) (h : bs ≠ []) :
    Reader.holding (bs ++ rest) al = ⟨[bs ++ rest], al⟩ := by
  simp [Reader.holding, h]

theorem Read_holding (bs rest : List Byte) (al : List Nat) (h : bs ≠ []) :
    (Reader.holding (bs ++ rest) al).Read bs.length = (bs, none, Reader.holding rest al) := by
  rw [holding_append_ne _ _ _ h]
  by_cases hr : rest = []
  · subst hr
    simp [Reader.Read, Reader.holding]
  · have : 0 < rest.length := List.length_pos.mpr hr
    simp [Reader.Read, Reader.holding, hr, this]

theorem Read_int_holding (v : Nat) (rest : List Byte) (al : List Nat) (t : Int) :
    Read_int (Reader.holding (PutUint64 v ++ rest) al) t =
      (int v, none, Reader.holding rest al) := by
  have h := Read_holding (PutUint64 v) rest al (by simp [PutUint64])
  rw [PutUint64_length] at h
  unfold Read_int
  rw [h]
  have : fillBuffer 8 (PutUint64 v) = PutUint64 v := by simp [fillBuffer, PutUint64_length]
  simp only [this, Uint64_PutUint64]
  simp [int]

theorem Read_byte_holding (b : Byte) (rest : List Byte) (al : List Nat) (t : Byte) :
    Read_byte (Reader.holding (b :: rest) al) t = (b, none, Reader.holding rest al) := by
  have h := Read_holding [b] rest al (by simp)
  simp only [List.length_singleton, List.singleton_append] at h
  unfold Read_byte
  rw [h]
  simp [fillBuffer]

theorem CopyN_holding (bs rest : List Byte) (al : List Nat) :
    CopyN (Reader.holding (bs ++ rest) al).chunks bs.length =
      (bs, none, (Reader.holding rest al).chunks) := by
  cases bs with
  | nil => simp [CopyN]
  | cons b bs =>
    simp only [Reader.holding, List.cons_append, reduceCtorEq, if_false, List.length_cons]
    by_cases hr : rest = []
    · subst hr
      simp [CopyN]
    · have : 0 < rest.length := List.length_pos.mpr hr
      simp [CopyN, hr, this]


theorem int_length (s : GoString) (maxAlloc : Nat) (hm : maxAlloc < 2 ^ 63)
    (hs : s.length ≤ maxAlloc) : int (uint64 (s.length : Int)) = (s.length : Int) :=
  int_uint64 _ (by omega) (by omega)

theorem Read_string_holding (maxAlloc : Nat) (hm : maxAlloc < 2 ^ 63) (s rest : List Byte)
    (hs : s.length ≤ maxAlloc) (al : List Nat) (t : GoString) :
    Read_string maxAlloc (Reader.holding (encString s ++ rest) al) t =
      .ret s none (Reader.holding rest (al ++ [s.length])) := by
  unfold Read_string
  rw [encString, encInt_eq, List.append_assoc, Read_int_holding, int_length s maxAlloc hm hs]
  have h1 : ¬ (((s.length : Nat) : Int) < 0 ∨ (maxAlloc : Int) < ((s.length : Nat) : Int)) := by
    omega
  simp only [h1, if_false, Int.toNat_ofNat]
  have h2 := CopyN_holding s rest al
  simp only [Reader.holding] at h2 ⊢
  rw [h2]
  simp

theorem Read_string_string_holding (maxAlloc : Nat) (hm : maxAlloc < 2 ^ 63)
    (a b rest : List Byte) (ha : a.length ≤ maxAlloc) (hb : b.length ≤ maxAlloc)
    (al : List Nat) (x y : GoString) :
    Read_string_string maxAlloc (Reader.holding (encString a ++ encString b ++ rest) al) x y =
      .ret (a, b) none (Reader.holding rest (al ++ [a.length] ++ [b.length])) := by
  unfold Read_string_string
  rw [List.append_assoc, Read_string_holding maxAlloc hm a _ ha]
  simp only
  rw [Read_string_holding maxAlloc hm b _ hb]

theorem Read_string_int_byte_holding (maxAlloc : Nat) (hm : maxAlloc < 2 ^ 63)
    (a rest : List Byte) (p : Int) (f : Byte) (ha : a.length ≤ maxAlloc)
    (hp1 : -2 ^ 63 ≤ p) (hp2 : p < 2 ^ 63) (al : List Nat) (x : GoString) (y : Int) (z : Byte) :
    Read_string_int_byte maxAlloc
        (Reader.holding (encString a ++ encInt p ++ [f] ++ rest) al) x y z =
      .ret (a, p, f) none (Reader.holding rest (al ++ [a.length])) := by
  unfold Read_string_int_byte
  rw [List.append_assoc, List.append_assoc, Read_string_holding maxAlloc hm a _ ha]
  simp only
  rw [encInt_eq, Read_int_holding, int_uint64 p hp1 hp2]
  simp only [List.singleton_append]
  rw [Read_byte_holding]

/-! ## The writer -/

theorem Write_neverFails (w : Writer) (h : w.neverFails) (data : List Byte) :
    (w.Write data).1 = none ∧ (w.Write data).2.out = w.out ++ data ∧
      (w.Write data).2.neverFails := by
  unfold Writer.Write
  cases hs : w.script with
  | nil => exact ⟨rfl, rfl, by simp [Writer.neverFails, hs]⟩
  | cons x rest =>
    have hx : x = none := h x (by simp [hs])
    subst hx
    refine ⟨rfl, rfl, ?_⟩
    intro y hy
    exact h y (by simp [hs, hy])

theorem copyLoop_neverFails (fuel : Nat) : ∀ (w : Writer) (data : List Byte),
    w.neverFails → data.length ≤ fuel →
    (copyLoop fuel w data).1 = none ∧ (copyLoop fuel w data).2.out = w.out ++ data ∧
      (copyLoop fuel w data).2.neverFails := by
  induction fuel with
  | zero =>
    intro w data h hl
    have : data = [] := List.length_eq_zero.mp (by omega)
    subst this
    simpa [copyLoop] using h
  | succ n ih =>
    intro w data h hl
    unfold copyLoop
    by_cases hd : data = []
    · subst hd
      simpa using h
    · simp only [hd, if_false]
      obtain ⟨e1, e2, e3⟩ := Write_neverFails w h (data.take copyBufferSize)
      cases hw : w.Write (data.take copyBufferSize) with
      | mk err w' =>
        rw [hw] at e1 e2 e3
        simp only at e1 e2 e3
        subst e1
        simp only
        have hpos : 0 < data.length := List.length_pos.mpr hd
        have hlen : (data.drop copyBufferSize).length ≤ n := by
          simp only [List.length_drop, copyBufferSize]
          omega
        obtain ⟨f1, f2, f3⟩ := ih w' (data.drop copyBufferSize) e3 hlen
        refine ⟨f1, ?_, f3⟩
        rw [f2, e2, List.append_assoc, List.take_append_drop]

theorem Write_int_neverFails (w : Writer) (h : w.neverFails) (t : Int) :
    (Write_int w t).1 = none ∧ (Write_int w t).2.out = w.out ++ encInt t ∧
      (Write_int w t).2.neverFails := by
  rw [encInt_eq]
  exact Write_neverFails w h _

theorem Write_string_neverFails (w : Writer) (h : w.neverFails) (t : GoString) :
    (Write_string w t).1 = none ∧ (Write_string w t).2.out = w.out ++ encString t ∧
      (Write_string w t).2.neverFails := by
  obtain ⟨e1, e2, e3⟩ := Write_int_neverFails w h t.length
  unfold Write_string
  cases hw : Write_int w t.length with
  | mk err w1 =>
    rw [hw] at e1 e2 e3
    simp only at e1 e2 e3
    subst e1
    simp only
    obtain ⟨f1, f2, f3⟩ := copyLoop_neverFails t.length w1 t e3 (Nat.le_refl _)
    refine ⟨f1, ?_, f3⟩
    unfold CopyN_Writer
    rw [f2, e2, encString, List.append_assoc]

theorem Write_string_string_neverFails (w : Writer) (h : w.neverFails) (a b : GoString) :
    (Write_string_string w a b).1 = none ∧
      (Write_string_string w a b).2.out = w.out ++ (encString a ++ encString b) ∧
      (Write_string_string w a b).2.neverFails := by
  obtain ⟨_, e2, e3⟩ := Write_string_neverFails w h a
  unfold Write_string_string
  cases hw : Write_string w a with
  | mk err w1 =>
    rw [hw] at e2 e3
    simp only at e2 e3 ⊢
    obtain ⟨f1, f2, f3⟩ := Write_string_neverFails w1 e3 b
    refine ⟨f1, ?_, f3⟩
    rw [f2, e2, List.append_assoc]

theorem Write_string_int_byte_neverFails (w : Writer) (h : w.neverFails) (a : GoString)
    (p : Int) (f : Byte) :
    (Write_string_int_byte w a p f).1 = none ∧
      (Write_string_int_byte w a p f).2.out = w.out ++ (encString a ++ encInt p ++ [f]) ∧
      (Write_string_int_byte w a p f).2.neverFails := by
  obtain ⟨_, e2, e3⟩ := Write_string_neverFails w h a
  unfold Write_string_int_byte
  cases hw : Write_string w a with
  | mk err w1 =>
    rw [hw] at e2 e3
    simp only at e2 e3 ⊢
    obtain ⟨_, f2, f3⟩ := Write_int_neverFails w1 e3 p
    cases hw2 : Write_int w1 p with
    | mk err2 w2 =>
      rw [hw2] at f2 f3
      simp only at f2 f3 ⊢
      obtain ⟨g1, g2, g3⟩ := Write_neverFails w2 f3 [f]
      refine ⟨g1, ?_, g3⟩
      unfold Write_byte
      rw [g2, f2, e2]
      simp [List.append_assoc]

/-! ## Encoding and decoding a socket definition -/

theorem flagsOf_none_none (a : GoString) (p : Int) : flagsOf ⟨a, p, none, none⟩ = 0 := by
  simp only [flagsOf, Option.isSome_some, Option.isSome_none, if_true, Bool.false_eq_true, if_false]
  decide

theorem flagsOf_none_some (a : GoString) (p : Int) (h : SocketHTTPDefinition) :
    flagsOf ⟨a, p, none, some h⟩ = 1 := by
  simp only [flagsOf, Option.isSome_some, Option.isSome_none, if_true, Bool.false_eq_true, if_false]
  decide

theorem flagsOf_some_none (a : GoString) (p : Int) (c : SocketTLSDefinition) :
    flagsOf ⟨a, p, some c, none⟩ = 2 := by
  simp only [flagsOf, Option.isSome_some, Option.isSome_none, if_true, Bool.false_eq_true, if_false]
  decide

theorem flagsOf_some_some (a : GoString) (p : Int) (c : SocketTLSDefinition)
    (h : SocketHTTPDefinition) : flagsOf ⟨a, p, some c, some h⟩ = 3 := by
  simp only [flagsOf, Option.isSome_some, Option.isSome_none, if_true, Bool.false_eq_true, if_false]
  decide

theorem flagsOf_bits (s : SocketDefinition) :
    ((flagsOf s).val &&& 0x01 ≠ 0 ↔ s.HTTP.isSome = true) ∧
      ((flagsOf s).val &&& 0x02 ≠ 0 ↔ s.TLS.isSome = true) ∧
      (flagsOf s).val &&& 0xFC = 0 := by
  obtain ⟨a, p, tls, http⟩ := s
  cases tls <;> cases http
  · rw [flagsOf_none_none]; simp only [Option.isSome_some, Option.isSome_none]; decide
  · rw [flagsOf_none_some]; simp only [Option.isSome_some, Option.isSome_none]; decide
  · rw [flagsOf_some_none]; simp only [Option.isSome_some, Option.isSome_none]; decide
  · rw [flagsOf_some_some]; simp only [Option.isSome_some, Option.isSome_none]; decide

theorem Write_SocketDefinition_neverFails (w : Writer) (h : w.neverFails)
    (s : SocketDefinition) :
    (Write_SocketDefinition w s).1 = none ∧
      (Write_SocketDefinition w s).2.out = w.out ++ wireLayout s (flagsOf s) ∧
      (Write_SocketDefinition w s).2.neverFails := by
  obtain ⟨e1, e2, e3⟩ := Write_string_int_byte_neverFails w h s.Address s.Port (flagsOf s)
  unfold Write_SocketDefinition wireLayout httpFields tlsFields
  cases hw : Write_string_int_byte w s.Address s.Port (flagsOf s) with
  | mk err w1 =>
    rw [hw] at e1 e2 e3
    simp only at e1 e2 e3
    subst e1
    simp only [if_true]
    cases hH : s.HTTP with
    | none =>
      simp only
      cases hT : s.TLS with
      | none => simp [e2, e3]
      | some c =>
        obtain ⟨f1, f2, f3⟩ := Write_string_string_neverFails w1 e3 c.Cert c.Key
        simp only [if_true]
        refine ⟨f1, ?_, f3⟩
        rw [f2, e2]
        simp [List.append_assoc]
    | some hd =>
      obtain ⟨f1, f2, f3⟩ := Write_string_string_neverFails w1 e3 hd.DomainSuffix hd.PathPrefix
      simp only [f1, if_true]
      cases hT : s.TLS with
      | none =>
        refine ⟨f1, ?_, f3⟩
        rw [f2, e2]
        simp [List.append_assoc]
      | some c =>
        obtain ⟨g1, g2, g3⟩ := Write_string_string_neverFails _ f3 c.Cert c.Key
        refine ⟨g1, ?_, g3⟩
        simp only
        rw [g2, f2, e2]
        simp [List.append_assoc]

theorem decodeHTTP_set (maxAlloc : Nat) (hm : maxAlloc < 2 ^ 63) (flags : Byte)
    (hf : flags.val &&& (1 <<< 0) ≠ 0) (t : SocketDefinition) (h : SocketHTTPDefinition)
    (h1 : h.DomainSuffix.length ≤ maxAlloc) (h2 : h.PathPrefix.length ≤ maxAlloc)
    (rest : List Byte) (al : List Nat) :
    decodeHTTP maxAlloc flags t none
        (Reader.holding (encString h.DomainSuffix ++ encString h.PathPrefix ++ rest) al) =
      .ret { t with HTTP := some h } none
        (Reader.holding rest (al ++ [h.DomainSuffix.length] ++ [h.PathPrefix.length])) := by
  unfold decodeHTTP
  rw [Read_string_string_holding maxAlloc hm _ _ _ h1 h2]
  simp only [if_true, hf, ne_eq, not_false_eq_true]

theorem decodeHTTP_unset (maxAlloc : Nat) (flags : Byte) (hf : flags.val &&& (1 <<< 0) = 0)
    (t : SocketDefinition) (r : Reader) :
    decodeHTTP maxAlloc flags t none r = .ret t none r := by
  unfold decodeHTTP
  simp only [if_true, hf, ne_eq, not_true_eq_false, if_false]

theorem decodeTLS_set (maxAlloc : Nat) (hm : maxAlloc < 2 ^ 63) (flags : Byte)
    (hf : flags.val &&& (1 <<< 1) ≠ 0) (t : SocketDefinition) (c : SocketTLSDefinition)
    (h1 : c.Cert.length ≤ maxAlloc) (h2 : c.Key.length ≤ maxAlloc)
    (rest : List Byte) (al : List Nat) :
    decodeTLS maxAlloc flags t none
        (Reader.holding (encString c.Cert ++ encString c.Key ++ rest) al) =
      .ret { t with TLS := some c } none
        (Reader.holding rest (al ++ [c.Cert.length] ++ [c.Key.length])) := by
  unfold decodeTLS
  rw [Read_string_string_holding maxAlloc hm _ _ _ h1 h2]
  simp only [if_true, hf, ne_eq, not_false_eq_true]

theorem decodeTLS_unset (maxAlloc : Nat) (flags : Byte) (hf : flags.val &&& (1 <<< 1) = 0)
    (t : SocketDefinition) (r : Reader) :
    decodeTLS maxAlloc flags t none r = .ret t none r := by
  unfold decodeTLS
  simp only [if_true, hf, ne_eq, not_true_eq_false, if_false]

theorem Read_SocketDefinition_wireLayout (maxAlloc : Nat) (hm : maxAlloc < 2 ^ 63)
    (s : SocketDefinition) (hs : s.WF maxAlloc) (t : SocketDefinition)
    (ht1 : t.HTTP = none) (ht2 : t.TLS = none) :
    ∃ al, Read_SocketDefinition maxAlloc (Reader.holding (wireLayout s (flagsOf s)) []) t =
      .ret s none ⟨[], al⟩ := by
  obtain ⟨hp1, hp2, hstr⟩ := hs
  obtain ⟨a, p, tls, http⟩ := s
  obtain ⟨ta, tp, ttls, thttp⟩ := t
  simp only at ht1 ht2 hp1 hp2
  subst ht1 ht2
  have ha : a.length ≤ maxAlloc := hstr a (by simp [SocketDefinition.strings])
  have hnil : ∀ al, Reader.holding [] al = ⟨[], al⟩ := fun al => by simp [Reader.holding]
  unfold Read_SocketDefinition wireLayout
  simp only [List.append_assoc]
  have key := Read_string_int_byte_holding maxAlloc hm a
    (httpFields ⟨a, p, tls, http⟩ ++ tlsFields ⟨a, p, tls, http⟩) p
    (flagsOf ⟨a, p, tls, http⟩) ha hp1 hp2 [] ta tp 0
  simp only [List.append_assoc, List.nil_append] at key
  rw [key]
  simp only
  cases http with
  | none =>
    cases tls with
    | none =>
      refine ⟨[a.length], ?_⟩
      rw [flagsOf_none_none, decodeHTTP_unset _ _ (by decide)]
      simp only
      rw [decodeTLS_unset _ _ (by decide)]
      simp only [httpFields, tlsFields, List.append_nil, hnil]
    | some c =>
      have hc : c.Cert.length ≤ maxAlloc := hstr _ (by simp [SocketDefinition.strings])
      have hk : c.Key.length ≤ maxAlloc := hstr _ (by simp [SocketDefinition.strings])
      refine ⟨[a.length] ++ [c.Cert.length] ++ [c.Key.length], ?_⟩
      rw [flagsOf_some_none, decodeHTTP_unset _ _ (by decide)]
      simp only [httpFields, tlsFields, List.nil_append]
      have r := decodeTLS_set maxAlloc hm 2 (by decide) ⟨a, p, none, none⟩ c hc hk [] [a.length]
      simp only [List.append_nil] at r
      rw [r, hnil]
  | some hd =>
    have hd1 : hd.DomainSuffix.length ≤ maxAlloc := hstr _ (by simp [SocketDefinition.strings])
    have hd2 : hd.PathPrefix.length ≤ maxAlloc := hstr _ (by simp [SocketDefinition.strings])
    cases tls with
    | none =>
      refine ⟨[a.length] ++ [hd.DomainSuffix.length] ++ [hd.PathPrefix.length], ?_⟩
      rw [flagsOf_none_some]
      simp only [httpFields, tlsFields]
      rw [decodeHTTP_set maxAlloc hm 1 (by decide) _ hd hd1 hd2]
      simp only
      rw [decodeTLS_unset _ _ (by decide), hnil]
    | some c =>
      have hc : c.Cert.length ≤ maxAlloc := hstr _ (by simp [SocketDefinition.strings])
      have hk : c.Key.length ≤ maxAlloc := hstr _ (by simp [SocketDefinition.strings])
      refine ⟨[a.length] ++ [hd.DomainSuffix.length] ++ [hd.PathPrefix.length] ++
        [c.Cert.length] ++ [c.Key.length], ?_⟩
      rw [flagsOf_some_some]
      simp only [httpFields, tlsFields]
      rw [decodeHTTP_set maxAlloc hm 3 (by decide) _ hd hd1 hd2]
      simp only
      have r := decodeTLS_set maxAlloc hm 3 (by decide) ⟨a, p, none, some hd⟩ c hc hk []
        ([a.length] ++ [hd.DomainSuffix.length] ++ [hd.PathPrefix.length])
      simp only [List.append_nil] at r
      rw [r, hnil]

/-! ## Claims about the codec -/

/-- C1 (handshake round trip): for every socket definition `s` that a Go
program can hold (64 bit port, strings no longer than the runtime allows),
`WriteHandshakeRequest` on a writer that accepts everything succeeds, and
`ReadHandshakeRequest` on a stream that holds the written bytes and delivers
every requested byte returns, with a nil error and the stream used up, a
request whose socket definition equals `s`; HTTP is present exactly when `s`
has HTTP and TLS exactly when `s` has TLS. -/
theorem handshake_round_trip (maxAlloc : Nat) (s : SocketDefinition)
    (hm : maxAlloc < 2 ^ 63) (hs : s.WF maxAlloc) :
    (WriteHandshakeRequest ⟨[], []⟩ ⟨s⟩).1 = none ∧
      ∃ req al,
        ReadHandshakeRequest maxAlloc
            (Reader.ofBytes (WriteHandshakeRequest ⟨[], []⟩ ⟨s⟩).2.out) =
          .ret req none ⟨[], al⟩ ∧
        req.SocketDefinition = s ∧
        req.SocketDefinition.HTTP.isSome = s.HTTP.isSome ∧
        req.SocketDefinition.TLS.isSome = s.TLS.isSome := by
  have hw := Write_SocketDefinition_neverFails ⟨[], []⟩ (by intro x hx; simp at hx) s
  refine ⟨hw.1, ?_⟩
  obtain ⟨al, hal⟩ :=
    Read_SocketDefinition_wireLayout maxAlloc hm s hs SocketDefinition.zero rfl rfl
  refine ⟨⟨s⟩, al, ?_, rfl, rfl, rfl⟩
  have he : (WriteHandshakeRequest ⟨[], []⟩ ⟨s⟩).2.out = wireLayout s (flagsOf s) := by
    simpa [WriteHandshakeRequest] using hw.2.1
  rw [he]
  unfold ReadHandshakeRequest
  have ho : Reader.ofBytes (wireLayout s (flagsOf s)) =
      Reader.holding (wireLayout s (flagsOf s)) [] := rfl
  rw [ho, hal]

theorem handshake_round_trip_witness :
    2 ^ 48 < 2 ^ 63 ∧ sampleDefinition.WF (2 ^ 48) ∧
      ((WriteHandshakeRequest ⟨[], []⟩ ⟨sampleDefinition⟩).1 = none ∧
      ∃ req al,
        ReadHandshakeRequest (2 ^ 48)
            (Reader.ofBytes (WriteHandshakeRequest ⟨[], []⟩ ⟨sampleDefinition⟩).2.out) =
          .ret req none ⟨[], al⟩ ∧
        req.SocketDefinition = sampleDefinition ∧
        req.SocketDefinition.HTTP.isSome = sampleDefinition.HTTP.isSome ∧
        req.SocketDefinition.TLS.isSome = sampleDefinition.TLS.isSome) :=
  ⟨by decide, by decide, handshake_round_trip (2 ^ 48) sampleDefinition (by decide) (by decide)⟩

/-- C2 (wire layout): on a writer that accepts everything, `Write(w, s)`
returns nil and appends exactly: the length-prefixed address, the port as 8
bytes big-endian two's complement, one flags byte `f` whose bit 0x01 is set
iff `s` has an HTTP predicate, whose bit 0x02 is set iff `s` has TLS material
and whose other bits are zero, then (if HTTP is present) the length-prefixed
domain suffix and path prefix, then (if TLS is present) the length-prefixed
certificate and key. -/
theorem wire_layout (w : Writer) (s : SocketDefinition) (h : w.neverFails) :
    ∃ f : Byte,
      (f.val &&& 0x01 ≠ 0 ↔ s.HTTP.isSome = true) ∧
      (f.val &&& 0x02 ≠ 0 ↔ s.TLS.isSome = true) ∧
      f.val &&& 0xFC = 0 ∧
      (Write_SocketDefinition w s).1 = none ∧
      (Write_SocketDefinition w s).2.out =
        w.out ++ (encString s.Address ++ encInt s.Port ++ [f] ++
          (match s.HTTP with
            | some d => encString d.DomainSuffix ++ encString d.PathPrefix
            | none => []) ++
          (match s.TLS with
            | some c => encString c.Cert ++ encString c.Key
            | none => [])) := by
  obtain ⟨b1, b2, b3⟩ := flagsOf_bits s
  obtain ⟨e1, e2, _⟩ := Write_SocketDefinition_neverFails w h s
  exact ⟨flagsOf s, b1, b2, b3, e1, e2⟩

theorem wire_layout_witness :
    (⟨[7], [none, none]⟩ : Writer).neverFails ∧
    ∃ f : Byte,
      (f.val &&& 0x01 ≠ 0 ↔ sampleDefinition.HTTP.isSome = true) ∧
      (f.val &&& 0x02 ≠ 0 ↔ sampleDefinition.TLS.isSome = true) ∧
      f.val &&& 0xFC = 0 ∧
      (Write_SocketDefinition ⟨[7], [none, none]⟩ sampleDefinition).1 = none ∧
      (Write_SocketDefinition ⟨[7], [none, none]⟩ sampleDefinition).2.out =
        [7] ++ (encString sampleDefinition.Address ++ encInt sampleDefinition.Port ++ [f] ++
          (match sampleDefinition.HTTP with
            | some d => encString d.DomainSuffix ++ encString d.PathPrefix
            | none => []) ++
          (match sampleDefinition.TLS with
            | some c => encString c.Cert ++ encString c.Key
            | none => [])) :=
  ⟨by decide, wire_layout ⟨[7], [none, none]⟩ sampleDefinition (by decide)⟩

/-- C3 (short read is a failure), evaluation at the failing input: the
encoding of `catchAllDefinition` has 42 bytes and ends with the 8 byte length
of the empty path prefix; on a stream that holds only the first `k` bytes, for
every `k` from 35 to 41, the single `r.Read` of the case `*int` returns fewer than 8
bytes with a nil error, the missing bytes are taken to be zero, and
`ReadHandshakeRequest` returns the full socket definition with a nil error. -/
theorem short_read_accepted :
    (encode catchAllDefinition).length = 42 ∧
      ∀ k ∈ [35, 36, 37, 38, 39, 40, 41],
        ReadHandshakeRequest (2 ^ 48) (Reader.ofBytes ((encode catchAllDefinition).take k)) =
          .ret ⟨catchAllDefinition⟩ none ⟨[], [9, 0, 0]⟩ := by
  decide

theorem CopyN_short : ∀ (cs : List (List Byte)) (n : Nat), cs.flatten.length < n →
    CopyN cs n = (cs.flatten, some Error.EOF, []) := by
  intro cs
  induction cs with
  | nil =>
    intro n h
    cases n with
    | zero => simp at h
    | succ n => simp [CopyN]
  | cons c cs ih =>
    intro n h
    cases n with
    | zero => simp at h
    | succ n =>
      simp only [List.flatten_cons, List.length_append] at h
      have h1 : ¬ (n + 1 < c.length) := by omega
      have h2 : cs.flatten.length < n + 1 - c.length := by omega
      simp only [CopyN, h1, if_false, ih _ h2, List.flatten_cons]

theorem Read_string_in_ample (maxAlloc : Nat) (r : Reader) (t : GoString) :
    Read_string_in ⟨maxAlloc, fun _ => true⟩ r t = .ended (Read_string maxAlloc r t) := by
  unfold Read_string_in Read_string
  rcases Read_int r 0 with ⟨sz, _ | e, r1⟩
  · simp only [Bool.true_eq_false, if_false]
    split
    · rfl
    · rcases CopyN r1.chunks sz.toNat with ⟨buf, _ | e, cs⟩
      · simp only
        split <;> rfl
      · rfl
  · rfl

theorem Read_bytes_in_ample (maxAlloc : Nat) (r : Reader) (t : List Byte) :
    Read_bytes_in ⟨maxAlloc, fun _ => true⟩ r t = .ended (Read_bytes maxAlloc r t) := by
  unfold Read_bytes_in Read_bytes
  rcases Read_int r 0 with ⟨sz, _ | e, r1⟩
  · simp only [Bool.true_eq_false, if_false]
    split
    · rfl
    · rcases CopyN r1.chunks sz.toNat with ⟨buf, _ | e, cs⟩
      · simp only
        split <;> rfl
      · rfl
  · rfl

/-- C5 (write failures propagate), evaluation at the failing input: the writer
accepts the 8 byte length of the address, fails on the address bytes and
accepts everything after that; `WriteHandshakeRequest` goes on to write the
port and the flags byte and returns nil.  The same happens when the very
first call fails. -/
theorem write_failure_swallowed :
    WriteHandshakeRequest ⟨[], [none, some (Error.failed 1)]⟩ ⟨plainDefinition⟩ =
        (none, ⟨encInt 9 ++ encInt 8999 ++ [0], []⟩) ∧
      WriteHandshakeRequest ⟨[], [some (Error.failed 1)]⟩ ⟨plainDefinition⟩ =
        (none, ⟨encInt 8999 ++ [0], []⟩) := by
  decide

/-! ## Routing by HTTP predicate -/

theorem HasPrefix_iff (s pre : GoString) : HasPrefix s pre = true ↔ pre <+: s := by
  unfold HasPrefix
  simp only [Bool.and_eq_true, decide_eq_true_eq]
  constructor
  · rintro ⟨_, h⟩
    rw [← h]
    exact List.take_prefix _ _
  · intro h
    exact ⟨h.length_le, (List.prefix_iff_eq_take.mp h).symm⟩

theorem HasSuffix_iff (s suffix : GoString) : HasSuffix s suffix = true ↔ suffix <:+ s := by
  unfold HasSuffix
  simp only [Bool.and_eq_true, decide_eq_true_eq]
  constructor
  · rintro ⟨_, h⟩
    rw [← h]
    exact List.drop_suffix _ _
  · intro h
    exact ⟨h.length_le, (List.suffix_iff_eq_drop.mp h).symm⟩

theorem findDownstreamIn_some (req : Request) : ∀ (ds : List downstreamConnection)
    (d : downstreamConnection), findDownstreamIn req ds = some d → d ∈ ds ∧ Matches req d := by
  intro ds
  induction ds with
  | nil => intro d h; simp [findDownstreamIn] at h
  | cons x xs ih =>
    intro d h
    unfold findDownstreamIn at h
    cases hx : x.socketDefinition.HTTP with
    | none =>
      rw [hx] at h
      obtain ⟨h1, h2⟩ := ih d h
      exact ⟨List.mem_cons_of_mem _ h1, h2⟩
    | some hd =>
      rw [hx] at h
      simp only at h
      split at h
      · rename_i hc
        simp only [Option.some.injEq] at h
        subst h
        simp only [Bool.and_eq_true, HasSuffix_iff, HasPrefix_iff] at hc
        exact ⟨List.mem_cons_self _ _, hd, hx, hc.1, hc.2⟩
      · obtain ⟨h1, h2⟩ := ih d h
        exact ⟨List.mem_cons_of_mem _ h1, h2⟩

theorem findDownstreamIn_none (req : Request) : ∀ (ds : List downstreamConnection),
    findDownstreamIn req ds = none → ∀ d ∈ ds, ¬ Matches req d := by
  intro ds
  induction ds with
  | nil => intro _ d hd; simp at hd
  | cons x xs ih =>
    intro h d hd
    unfold findDownstreamIn at h
    cases hx : x.socketDefinition.HTTP with
    | none =>
      rw [hx] at h
      rcases List.mem_cons.mp hd with rfl | hmem
      · rintro ⟨hh, e, _⟩
        rw [hx] at e
        cases e
      · exact ih h d hmem
    | some hh =>
      rw [hx] at h
      simp only at h
      split at h
      · cases h
      · rename_i hc
        rcases List.mem_cons.mp hd with rfl | hmem
        · rintro ⟨h', e, m1, m2⟩
          rw [hx] at e
          cases e
          apply hc
          simp only [Bool.and_eq_true, HasSuffix_iff, HasPrefix_iff]
          exact ⟨m1, m2⟩
        · exact ih h d hmem

/-- C6 (HTTP predicate match): `findDownstream` returns a worker if and only
if some registered worker has an HTTP predicate whose domain suffix is a
suffix of the request host and whose path prefix is a prefix of the request
path; a worker it returns is in the registry, has an HTTP predicate and
satisfies both conditions; a worker without an HTTP predicate is never
returned; the empty suffix matches every host and the empty prefix every
path, so a registered worker with both empty makes every request find a
worker. -/
theorem findDownstream_match (u : upstreamListener) (req : Request) :
    ((u.findDownstream req).isSome = true ↔
        ∃ d ∈ u.downstream, ∃ h, d.socketDefinition.HTTP = some h ∧
          h.DomainSuffix <:+ req.Host ∧ h.PathPrefix <+: req.Path) ∧
      (∀ d, u.findDownstream req = some d →
        d ∈ u.downstream ∧ ∃ h, d.socketDefinition.HTTP = some h ∧
          h.DomainSuffix <:+ req.Host ∧ h.PathPrefix <+: req.Path) ∧
      (∀ d, d.socketDefinition.HTTP = none → u.findDownstream req ≠ some d) ∧
      HasSuffix req.Host [] = true ∧ HasPrefix req.Path [] = true ∧
      (∀ d ∈ u.downstream, d.socketDefinition.HTTP = some ⟨[], []⟩ →
        (u.findDownstream req).isSome = true) := by
  have hiff : (u.findDownstream req).isSome = true ↔ ∃ d ∈ u.downstream, Matches req d := by
    unfold upstreamListener.findDownstream
    cases hf : findDownstreamIn req u.downstream with
    | none =>
      simp only [Option.isSome_none, Bool.false_eq_true, false_iff, not_exists, not_and]
      exact findDownstreamIn_none req _ hf
    | some d =>
      simp only [Option.isSome_some, true_iff]
      obtain ⟨h1, h2⟩ := findDownstreamIn_some req _ d hf
      exact ⟨d, h1, h2⟩
  refine ⟨hiff, ?_, ?_, ?_, ?_, ?_⟩
  · intro d hd
    exact findDownstreamIn_some req _ d hd
  · intro d hnone hd
    obtain ⟨_, h, e, _⟩ := findDownstreamIn_some req _ d hd
    rw [hnone] at e
    cases e
  · exact (HasSuffix_iff _ _).mpr (List.nil_suffix)
  · exact (HasPrefix_iff _ _).mpr (List.nil_prefix)
  · intro d hd he
    exact hiff.mpr ⟨d, hd, ⟨[], []⟩, he, List.nil_suffix, List.nil_prefix⟩

/-! ## `route` without an HTTP worker -/

theorem OpenStream_fails (y : Yamux) (s : Session) (h : s ∈ y.closed ∨ s ∈ y.unreachable) :
    y.OpenStream s = (none, y) := by
  simp [Yamux.OpenStream, h]

theorem Close_closed (y : Yamux) (s : Session) : s ∈ (y.Close s).closed := by
  unfold Yamux.Close
  split
  · assumption
  · simp

theorem routeLoop_stuck (X509KeyPair : GoString → GoString → Option Certificate) (now : Time)
    (d : downstreamConnection) (rest : List downstreamConnection) :
    ∀ (fuel : Nat) (u : upstreamListener) (y : Yamux) (attempts : List Session),
      (d.session ∈ y.closed ∨ d.session ∈ y.unreachable) →
      (routeLoop X509KeyPair now fuel u y (d :: rest) attempts).outcome = .looping ∧
        (routeLoop X509KeyPair now fuel u y (d :: rest) attempts).attempts =
          attempts ++ List.replicate fuel d.session := by
  intro fuel
  induction fuel with
  | zero => intro u y attempts _; simp [routeLoop]
  | succ n ih =>
    intro u y attempts h
    simp only [routeLoop, OpenStream_fails y d.session h]
    obtain ⟨h1, h2⟩ := ih
      (({ u with downstream := deleteDownstream u.downstream d.id }).update X509KeyPair now)
      (y.Close d.session) (attempts ++ [d.session]) (Or.inl (Close_closed y d.session))
    refine ⟨h1, ?_⟩
    rw [h2, List.append_assoc, List.replicate_succ]
    rfl

/-- C7 (failover of `route` without an HTTP worker), evaluation at the failing
input: the snapshot holds a worker whose peer has gone away (session 1) and
then a healthy worker (session 2), on which `OpenStream` would succeed.  For
every number of rounds the loop of `route` is still running and has called
`OpenStream` on session 1 only: the second worker is never tried and the
connection is never spliced.  With the dead worker alone in the snapshot the
loop likewise runs for ever and the inbound connection is never closed. -/
theorem route_retries_first_candidate (X509KeyPair : GoString → GoString → Option Certificate)
    (now : Time) (fuel : Nat) :
    (firstPeerGone.OpenStream 2).1 = some ⟨0, 2⟩ ∧
      (twoWorkers.route X509KeyPair now fuel firstPeerGone).outcome = .looping ∧
      (twoWorkers.route X509KeyPair now fuel firstPeerGone).attempts = List.replicate fuel 1 ∧
      (oneWorker.route X509KeyPair now fuel firstPeerGone).outcome = .looping ∧
      (oneWorker.route X509KeyPair now fuel firstPeerGone).attempts = List.replicate fuel 1 := by
  have h1 := routeLoop_stuck X509KeyPair now ⟨1, 1, plainDefinition⟩ [⟨3, 2, plainDefinition⟩]
    fuel twoWorkers firstPeerGone [] (Or.inr (by decide))
  have h2 := routeLoop_stuck X509KeyPair now ⟨1, 1, plainDefinition⟩ []
    fuel oneWorker firstPeerGone [] (Or.inr (by decide))
  simp only [List.nil_append] at h1 h2
  exact ⟨by decide, h1.1, h1.2, h2.1, h2.2⟩

/-! ## The reaper -/

/-- C8 (idle-listener collection), evaluation at the failing input: the
timeout of the reaper is the constant 30 s, `EmptyListenerTimeout` is never
read.  For every configuration `cfg` (so also for a configured timeout of
5 s), a listener with an empty registry that was last updated at second 100
is still in the index and not closed after the sweeps at second 110 and at
second 130 (exactly 30 s after the update); the sweep one nanosecond later
closes it and deletes it from the index. -/
theorem idle_listener_timeout_is_constant
    (X509KeyPair : GoString → GoString → Option Certificate) (cfg : Config) (y : Yamux) :
    Server.sweep X509KeyPair (Second * 110) y ⟨[emptyListener cfg], 3, cfg⟩ =
        ⟨⟨[emptyListener cfg], 3, cfg⟩, []⟩ ∧
      Server.sweep X509KeyPair (Second * 130) y ⟨[emptyListener cfg], 3, cfg⟩ =
        ⟨⟨[emptyListener cfg], 3, cfg⟩, []⟩ ∧
      Server.sweep X509KeyPair (Second * 130 + 1) y ⟨[emptyListener cfg], 3, cfg⟩ =
        ⟨⟨[], 3, cfg⟩, [(emptyListener cfg).close]⟩ ∧
      Server.sweep X509KeyPair (Second * 110) idleYamux
          ⟨[emptyListener shortConfig], 3, shortConfig⟩ =
        ⟨⟨[emptyListener shortConfig], 3, shortConfig⟩, []⟩ := by
  refine ⟨?_, ?_, ?_, ?_⟩ <;>
    simp [Server.sweep, sweepListener, evict, emptyListener, deleteUpstream, zeroTime, Second,
      Millisecond]

theorem evict_foldl (y : Yamux) : ∀ (ds : List downstreamConnection) (u : upstreamListener)
    (b : Bool),
    (ds.foldl
      (fun (acc : upstreamListener × Bool) d =>
        if y.IsClosed d.session then
          ({ acc.1 with downstream := deleteDownstream acc.1.downstream d.id }, true)
        else acc)
      (u, b)) =
    ({ u with downstream := u.downstream.filter fun x =>
        !(ds.any fun d => y.IsClosed d.session && decide (d.id = x.id)) },
      b || ds.any fun d => y.IsClosed d.session) := by
  intro ds
  induction ds with
  | nil => intro u b; simp
  | cons d ds ih =>
    intro u b
    simp only [List.foldl_cons]
    by_cases hc : y.IsClosed d.session = true
    · rw [if_pos hc, ih]
      simp only [deleteDownstream, List.filter_filter, List.any_cons, hc, Bool.true_and,
        Bool.true_or, Bool.or_true]
      congr 2
      apply List.filter_congr
      intro x _
      by_cases hx : d.id = x.id
      · simp [hx]
      · have hx' : ¬ x.id = d.id := fun e => hx e.symm
        simp [hx, hx']
    · rw [if_neg hc, ih]
      simp only [Bool.not_eq_true] at hc
      simp only [hc, List.any_cons, Bool.false_and, Bool.false_or]

theorem any_closed_same_id (y : Yamux) (l : List downstreamConnection)
    (hn : (l.map downstreamConnection.id).Nodup) (x : downstreamConnection) (hx : x ∈ l) :
    (l.any fun d => y.IsClosed d.session && decide (d.id = x.id)) = y.IsClosed x.session := by
  cases hcl : y.IsClosed x.session with
  | true =>
    rw [List.any_eq_true]
    exact ⟨x, hx, by simp [hcl]⟩
  | false =>
    rw [List.any_eq_false]
    intro d hd
    simp only [Bool.and_eq_true, decide_eq_true_eq, not_and]
    intro hdc he
    have : d = x := List.inj_on_of_nodup_map hn hd hx he
    subst this
    rw [hcl] at hdc
    cases hdc

theorem evict_downstream (y : Yamux) (u : upstreamListener)
    (hn : (u.downstream.map downstreamConnection.id).Nodup) :
    (evict y u).1 =
      { u with downstream := u.downstream.filter fun d => !y.IsClosed d.session } := by
  unfold evict
  rw [evict_foldl]
  simp only
  congr 1
  apply List.filter_congr
  intro x hx
  rw [any_closed_same_id y _ hn x hx]

theorem sweepListener_fst (X509KeyPair : GoString → GoString → Option Certificate) (now : Time)
    (y : Yamux) (u : upstreamListener)
    (hn : (u.downstream.map downstreamConnection.id).Nodup) :
    (sweepListener X509KeyPair now y u).1.id = u.id ∧
      (sweepListener X509KeyPair now y u).1.downstream =
        u.downstream.filter fun d => !y.IsClosed d.session := by
  have he := evict_downstream y u hn
  unfold sweepListener
  cases hev : evict y u with
  | mk u1 changed =>
    rw [hev] at he
    simp only at he
    subst he
    simp only
    cases changed <;> simp only [Bool.false_eq_true, if_true, if_false] <;> split <;>
      exact ⟨rfl, rfl⟩

theorem sweep_foldl : ∀ (vs : List (upstreamListener × Bool)) (m : List upstreamListener),
    vs.foldl (fun m v => if v.2 then deleteUpstream m v.1.id else m) m =
      m.filter fun x => !(vs.any fun v => v.2 && decide (v.1.id = x.id)) := by
  intro vs
  induction vs with
  | nil => intro m; simp
  | cons v vs ih =>
    intro m
    simp only [List.foldl_cons]
    by_cases hc : v.2 = true
    · rw [if_pos hc, ih]
      simp only [deleteUpstream, List.filter_filter, List.any_cons, hc, Bool.true_and]
      apply List.filter_congr
      intro x _
      by_cases hx : v.1.id = x.id
      · simp [hx]
      · have hx' : ¬ x.id = v.1.id := fun e => hx e.symm
        simp [hx, hx']
    · rw [if_neg hc, ih]
      simp only [Bool.not_eq_true] at hc
      simp only [hc, List.any_cons, Bool.false_and, Bool.false_or]

theorem close_fields (u : upstreamListener) :
    u.close.id = u.id ∧ u.close.downstream = u.downstream := by
  unfold upstreamListener.close
  split <;> exact ⟨rfl, rfl⟩

theorem sweep_eq (X509KeyPair : GoString → GoString → Option Certificate) (now : Time)
    (y : Yamux) (s : Server) :
    (s.sweep X509KeyPair now y).server.upstream =
        ((s.upstream.map (sweepListener X509KeyPair now y)).map fun v => v.1).filter (fun x =>
          !((s.upstream.map (sweepListener X509KeyPair now y)).any fun v =>
            v.2 && decide (v.1.id = x.id))) ∧
      (s.sweep X509KeyPair now y).closed =
        ((s.upstream.map (sweepListener X509KeyPair now y)).filter fun v => v.2).map
          fun v => v.1.close := by
  unfold Server.sweep
  simp only [sweep_foldl, and_self]

theorem findLoop_polls_then (X509KeyPair : GoString → GoString → Option Certificate)
    (req : Request) (deadline : Time) (m : Nat) : ∀ (k : Nat) (st : HTTPState),
    st.u.findDownstream req = none →
    st.now + (k : Int) * (Millisecond * 100) ≤ deadline + Millisecond * 100 →
    findLoop X509KeyPair req deadline (k + m) st =
      findLoop X509KeyPair req deadline m
        { st with now := st.now + (k : Int) * (Millisecond * 100) } := by
  intro k
  induction k with
  | zero => intro st _ _; simp
  | succ n ih =>
    intro st hnone hle
    have hms : (0 : Int) < Millisecond * 100 := by decide
    have hnot : ¬ st.now > deadline := by
      push_cast at hle
      nlinarith
    rw [Nat.add_right_comm]
    simp only [findLoop, hnone, hnot, if_false]
    rw [ih { st with now := st.now + Millisecond * 100 } hnone (by push_cast at hle ⊢; linarith)]
    congr 2
    push_cast
    ring

theorem findLoop_polls (X509KeyPair : GoString → GoString → Option Certificate) (req : Request)
    (deadline : Time) (k : Nat) (st : HTTPState)
    (hnone : st.u.findDownstream req = none)
    (hle : st.now + (k : Int) * (Millisecond * 100) ≤ deadline + Millisecond * 100) :
    findLoop X509KeyPair req deadline k st =
      (.polling, { st with now := st.now + (k : Int) * (Millisecond * 100) }) := by
  have h := findLoop_polls_then X509KeyPair req deadline 0 k st hnone hle
  simpa [findLoop] using h

theorem findLoop_timeout (X509KeyPair : GoString → GoString → Option Certificate) (req : Request)
    (deadline : Time) (fuel : Nat) (st : HTTPState) (hnone : st.u.findDownstream req = none)
    (hlate : st.now > deadline) :
    findLoop X509KeyPair req deadline (fuel + 1) st =
      (.notFound, { st with written := st.written ++ [notFoundResponse] }) := by
  simp only [findLoop, hnone, hlate, if_true]

/-- C10 (missing-route deadline), evaluation at the failing input: the
deadline of `routeHTTP` is the constant 30 s, `MissingRouteTimeout` is never
read.  For every configuration `cfg` (so also for a configured timeout of
5 s), every request and every time `t0` at which it was parsed, a listener
without workers keeps polling and writes nothing in each of the first 301
rounds, up to `t0 + 30 s`; the round after that, at `t0 + 30.1 s`, writes the
404 response (body `Not Found`, content length 9) and returns. -/
theorem missing_route_deadline_is_constant
    (X509KeyPair : GoString → GoString → Option Certificate) (cfg : Config) (req : Request)
    (t0 : Time) :
    (∀ k ∈ List.range 302,
        awaitRoute X509KeyPair k req ⟨emptyListener cfg, idleYamux, t0, none, none, []⟩ =
          (.polling,
            ⟨emptyListener cfg, idleYamux, t0 + (k : Int) * (Millisecond * 100), none, none, []⟩)) ∧
      awaitRoute X509KeyPair 302 req ⟨emptyListener cfg, idleYamux, t0, none, none, []⟩ =
        (.notFound,
          ⟨emptyListener cfg, idleYamux, t0 + Second * 30 + Millisecond * 100, none, none,
            [notFoundResponse]⟩) ∧
      awaitRoute X509KeyPair 101 req ⟨emptyListener shortConfig, idleYamux, 0, none, none, []⟩ =
        (.polling, ⟨emptyListener shortConfig, idleYamux, Second * 10 + Millisecond * 100,
          none, none, []⟩) ∧
      notFoundResponse.StatusCode = 404 ∧ notFoundResponse.Body = msgNotFound ∧
      notFoundResponse.ContentLength = 9 := by
  have hnone : ∀ t : Time, ∀ c : Config,
      (⟨emptyListener c, idleYamux, t, none, none, []⟩ : HTTPState).u.findDownstream req = none :=
    fun _ _ => rfl
  have hS : Second = 1000000000 := by decide
  have hM : Millisecond = 1000000 := by decide
  refine ⟨?_, ?_, ?_, by decide, by decide, by decide⟩
  · intro k hk
    have hk' : k < 302 := List.mem_range.mp hk
    unfold awaitRoute
    rw [findLoop_polls X509KeyPair req _ k _ (hnone t0 cfg)]
    simp only [hS, hM]
    have : (k : Int) ≤ 301 := by omega
    linarith
  · unfold awaitRoute
    rw [findLoop_polls_then X509KeyPair req _ 1 301 _ (hnone t0 cfg)
      (by simp only [hS, hM]; norm_num; linarith)]
    rw [findLoop_timeout X509KeyPair req _ 0 _ (hnone _ cfg)
      (by simp only [hS, hM]; norm_num)]
    simp only [hS, hM, List.nil_append, Prod.mk.injEq, true_and]
    congr 1
    norm_num
    ring
  · unfold awaitRoute
    rw [findLoop_polls X509KeyPair req _ 101 _ (hnone 0 shortConfig)
      (by simp only [hS, hM]; norm_num)]
    simp only [hS, hM, Prod.mk.injEq, true_and]
    congr 1

/-! ## Reading from a stream that delivers fewer bytes than asked for -/

/-- C17 (decoding does not depend on the chunking), evaluation at the failing
input: the 26 bytes of the encoding of `plainDefinition` (address
`127.0.0.1`, port 8999) arrive in two non-empty reads.  Delivered at once
they decode to `plainDefinition`.  When the first read ends after 20 bytes,
three bytes into the port, `ReadHandshakeRequest` returns port 0 with a nil
error and leaves five bytes unread; when it ends after 3 bytes, inside the
length of the address, the bytes of the address are taken for the length of
the certificate and `make` panics.  A cut inside the bytes of the address
(after 12 bytes) does no harm, because `io.CopyN` keeps reading. -/
theorem chunked_read_differs :
    (encode plainDefinition).length = 26 ∧
      ReadHandshakeRequest (2 ^ 48) (Reader.ofChunks [encode plainDefinition]) =
        .ret ⟨plainDefinition⟩ none ⟨[], [9]⟩ ∧
      ReadHandshakeRequest (2 ^ 48)
          (Reader.ofChunks [(encode plainDefinition).take 20, (encode plainDefinition).drop 20]) =
        .ret ⟨{ plainDefinition with Port := 0 }⟩ none ⟨[[0, 0, 35, 39, 0]], [9]⟩ ∧
      ReadHandshakeRequest (2 ^ 48)
          (Reader.ofChunks [(encode plainDefinition).take 3, (encode plainDefinition).drop 3]) =
        .panic ∧
      ReadHandshakeRequest (2 ^ 48)
          (Reader.ofChunks [(encode plainDefinition).take 12, (encode plainDefinition).drop 12]) =
        .ret ⟨plainDefinition⟩ none ⟨[], [9]⟩ := by
  decide

/-! ## The accept loop of `Serve` -/

theorem backoff_pos (i : Nat) : 0 < backoff i := by
  unfold backoff
  have h : (0 : Int) < 2 ^ i := by positivity
  have hM : Millisecond = 1000000 := by decide
  have hS : Second = 1000000000 := by decide
  rw [hM, hS]
  apply lt_min
  · nlinarith
  · norm_num

theorem backoff_succ (i : Nat) :
    (if backoff i * 2 > 1 * Second then 1 * Second else backoff i * 2) = backoff (i + 1) := by
  unfold backoff
  have h : (0 : Int) < 2 ^ i := by positivity
  have hM : Millisecond = 1000000 := by decide
  have hS : Second = 1000000000 := by decide
  rw [hM, hS, pow_succ]
  generalize (2 : Int) ^ i = x at h ⊢
  simp only [min_def]
  split_ifs <;> first | rfl | linarith

theorem backoff_zero :
    (if 5 * Millisecond > 1 * Second then 1 * Second else 5 * Millisecond) = backoff 0 := by
  decide

/-- The value of `tempDelay` after `n` temporary errors. -/
theorem acceptLoop_eq : ∀ (results : List AcceptResult) (n : Nat),
    acceptLoop (if n = 0 then 0 else backoff (n - 1)) results =
      (List.range' n (temporaryErrors results)).map backoff := by
  intro results
  induction results with
  | nil => intro n; simp [acceptLoop, temporaryErrors]
  | cons r rest ih =>
    intro n
    cases r with
    | temporary =>
      have key : (let tempDelay : Duration :=
            if (if n = 0 then (0 : Duration) else backoff (n - 1)) = 0 then 5 * Millisecond
            else (if n = 0 then (0 : Duration) else backoff (n - 1)) * 2
          if tempDelay > 1 * Second then 1 * Second else tempDelay) = backoff n := by
        by_cases hn : n = 0
        · subst hn
          simp only [if_true]
          exact backoff_zero
        · have hp := backoff_pos (n - 1)
          have hne : backoff (n - 1) ≠ 0 := ne_of_gt hp
          simp only [hn, if_false, hne]
          have := backoff_succ (n - 1)
          rwa [Nat.sub_add_cancel (Nat.pos_of_ne_zero hn)] at this
      simp only [acceptLoop, temporaryErrors]
      simp only at key
      rw [key]
      have := ih (n + 1)
      simp only [Nat.add_one_ne_zero, if_false, Nat.add_sub_cancel] at this
      rw [this]
      simp [List.range'_succ]
    | accepted =>
      simp only [acceptLoop, temporaryErrors]
      exact ih n
    | fatal => simp [acceptLoop, temporaryErrors]

/-- C13 (control accept backoff), evaluation at the failing input: `Serve`
never sets `tempDelay` back to zero.  A temporary error, a successful accept
and another temporary error sleep 5 ms and then 10 ms, not 5 ms again; after
eight temporary errors every later one sleeps 1 s, whatever was accepted in
between.  In general the `n`-th temporary error since `Serve` started sleeps
`min(5 ms x 2^(n-1), 1 s)`, successful accepts not counted: so the first
part of the claim holds (`k` temporary errors in a row from the start of
`Serve` sleep 5 ms, 10 ms, ... capped at 1 s). -/
theorem accept_backoff_never_resets (results : List AcceptResult) (k : Nat) :
    serveSleeps [.temporary, .accepted, .temporary] = [5 * Millisecond, 10 * Millisecond] ∧
      serveSleeps (List.replicate 8 .temporary ++ [.accepted, .temporary]) =
        [5 * Millisecond, 10 * Millisecond, 20 * Millisecond, 40 * Millisecond,
          80 * Millisecond, 160 * Millisecond, 320 * Millisecond, 640 * Millisecond,
          1 * Second] ∧
      serveSleeps results = (List.range (temporaryErrors results)).map backoff ∧
      serveSleeps (List.replicate k .temporary) =
        (List.range k).map fun i => min (5 * Millisecond * 2 ^ i) (1 * Second) := by
  have hcount : temporaryErrors (List.replicate k .temporary) = k := by
    induction k with
    | zero => rfl
    | succ n ih => simp [List.replicate_succ, temporaryErrors, ih]
  have h := acceptLoop_eq results 0
  simp only [if_true] at h
  have hk := acceptLoop_eq (List.replicate k .temporary) 0
  simp only [if_true] at hk
  rw [hcount] at hk
  refine ⟨by decide, by decide, ?_, ?_⟩
  · rw [List.range_eq_range']
    exact h
  · rw [List.range_eq_range']
    exact hk

/-! ## The mode that `route` chooses -/

theorem useHTTP_foldl : ∀ (ds : List downstreamConnection) (b : Bool),
    ds.foldl (fun useHTTP d => if d.socketDefinition.HTTP.isSome then true else useHTTP) b =
      (b || ds.any fun d => d.socketDefinition.HTTP.isSome) := by
  intro ds
  induction ds with
  | nil => intro b; simp
  | cons d ds ih =>
    intro b
    simp only [List.foldl_cons, ih, List.any_cons]
    cases d.socketDefinition.HTTP.isSome <;> cases b <;> simp

theorem routeLoop_not_http (X509KeyPair : GoString → GoString → Option Certificate) (now : Time) :
    ∀ (fuel : Nat) (u : upstreamListener) (y : Yamux) (candidates : List downstreamConnection)
      (attempts : List Session),
      (routeLoop X509KeyPair now fuel u y candidates attempts).outcome ≠ .http := by
  intro fuel
  induction fuel with
  | zero => intro u y c a; simp [routeLoop]
  | succ n ih =>
    intro u y candidates attempts
    unfold routeLoop
    cases candidates with
    | nil => simp
    | cons d rest =>
      simp only
      cases hO : y.OpenStream d.session with
      | mk st y' =>
        cases st with
        | none => exact ih _ _ _ _
        | some stream => simp

/-- C12 (HTTP flag): for every registry, `route` hands the inbound connection
to `routeHTTP` if and only if at least one worker of the registry has an HTTP
predicate; otherwise it runs the loop over the candidates of the mode without
HTTP, whose outcome is never the HTTP mode; for the empty registry that loop
closes the connection at once. -/
theorem route_http_flag (X509KeyPair : GoString → GoString → Option Certificate) (now : Time)
    (fuel : Nat) (u : upstreamListener) (y : Yamux) :
    ((u.route X509KeyPair now fuel y).outcome = .http ↔
        ∃ d ∈ u.downstream, d.socketDefinition.HTTP.isSome = true) ∧
      ((¬ ∃ d ∈ u.downstream, d.socketDefinition.HTTP.isSome = true) →
        u.route X509KeyPair now fuel y = routeLoop X509KeyPair now fuel u y u.downstream []) ∧
      (({ u with downstream := [] } : upstreamListener).route X509KeyPair now (fuel + 1) y =
        ⟨.connClosed, { u with downstream := [] }, y, []⟩) := by
  have hany : (u.downstream.any fun d => d.socketDefinition.HTTP.isSome) = true ↔
      ∃ d ∈ u.downstream, d.socketDefinition.HTTP.isSome = true := by
    simp [List.any_eq_true]
  refine ⟨?_, ?_, ?_⟩
  · unfold upstreamListener.route
    simp only [useHTTP_foldl, Bool.false_or]
    constructor
    · intro h
      by_contra hne
      have hf : (u.downstream.any fun d => d.socketDefinition.HTTP.isSome) = false := by
        rw [← Bool.not_eq_true]
        exact fun ht => hne (hany.mp ht)
      rw [hf] at h
      simp only [Bool.false_eq_true, if_false] at h
      exact routeLoop_not_http X509KeyPair now fuel u y u.downstream [] h
    · intro h
      rw [hany.mpr h]
      rfl
  · intro hne
    have hf : (u.downstream.any fun d => d.socketDefinition.HTTP.isSome) = false := by
      rw [← Bool.not_eq_true]
      exact fun ht => hne (hany.mp ht)
    unfold upstreamListener.route
    simp only [useHTTP_foldl, Bool.false_or, hf, Bool.false_eq_true, if_false]
  · rfl

/-! ## The aggregated TLS configuration -/

theorem certs_foldl (X509KeyPair : GoString → GoString → Option Certificate) :
    ∀ (ds : List downstreamConnection) (acc : List Certificate),
    ds.foldl
      (fun certs d =>
        match d.socketDefinition.TLS with
        | some t =>
          match X509KeyPair t.Cert t.Key with
          | some cert => certs ++ [cert]
          | none => certs
        | none => certs) acc =
      acc ++ ds.filterMap (parseTLS X509KeyPair) := by
  intro ds
  induction ds with
  | nil => intro acc; simp
  | cons d ds ih =>
    intro acc
    simp only [List.foldl_cons, ih, List.filterMap_cons, parseTLS]
    cases hT : d.socketDefinition.TLS with
    | none => simp
    | some t =>
      simp only
      cases hX : X509KeyPair t.Cert t.Key with
      | none => simp
      | some c => simp

theorem update_tlsConfig (X509KeyPair : GoString → GoString → Option Certificate) (now : Time)
    (u : upstreamListener) :
    (u.update X509KeyPair now).tlsConfig =
        (if (u.downstream.filterMap (parseTLS X509KeyPair)).length > 0 then
          some (u.downstream.filterMap (parseTLS X509KeyPair)) else none) ∧
      (u.update X509KeyPair now).downstream = u.downstream := by
  unfold upstreamListener.update
  simp only [certs_foldl, List.nil_append, and_self]

theorem applyOp_tlsInSync (X509KeyPair : GoString → GoString → Option Certificate)
    (u : upstreamListener) (op : RegistryOp) : tlsInSync X509KeyPair (u.applyOp X509KeyPair op) := by
  unfold tlsInSync
  cases op with
  | insert d now =>
    simp only [upstreamListener.applyOp]
    rw [(update_tlsConfig X509KeyPair now _).1, (update_tlsConfig X509KeyPair now _).2]
  | remove id now =>
    simp only [upstreamListener.applyOp]
    rw [(update_tlsConfig X509KeyPair now _).1, (update_tlsConfig X509KeyPair now _).2]

theorem applyOps_tlsInSync (X509KeyPair : GoString → GoString → Option Certificate) :
    ∀ (ops : List RegistryOp) (u : upstreamListener), tlsInSync X509KeyPair u →
      tlsInSync X509KeyPair (u.applyOps X509KeyPair ops) := by
  intro ops
  induction ops with
  | nil => intro u h; exact h
  | cons op ops ih =>
    intro u _
    exact ih _ (applyOp_tlsInSync X509KeyPair u op)

theorem tlsInSync_certificates (X509KeyPair : GoString → GoString → Option Certificate)
    (u : upstreamListener) (h : tlsInSync X509KeyPair u) :
    u.certificates = u.downstream.filterMap (parseTLS X509KeyPair) ∧
      (u.tlsConfig = none ↔ u.downstream.filterMap (parseTLS X509KeyPair) = []) := by
  unfold tlsInSync at h
  unfold upstreamListener.certificates
  rw [h]
  cases hl : u.downstream.filterMap (parseTLS X509KeyPair) with
  | nil => simp
  | cons c cs => simp

/-- C11 (aggregated TLS configuration): after every sequence of insertions
and removals of workers, each followed by `update`, on a listener as
`handleDownstreamConnection` creates it, the certificate list of the TLS
configuration is, as a multiset, the successful parses of the PEM pairs of
the workers now in the registry that carry TLS material, for every parser;
the TLS configuration is nil if and only if that list is empty; `update` does
not change the registry; and inserting a worker whose pair does not parse
leaves that worker in the registry and gives the certificates of the other
workers. -/
theorem aggregated_tls (X509KeyPair : GoString → GoString → Option Certificate) (cfg : Config)
    (id : Int) (address : GoString) (port : Int) (ops : List RegistryOp) :
    ((((newListener cfg id address port).applyOps X509KeyPair ops).certificates :
        Multiset Certificate) =
      (((newListener cfg id address port).applyOps X509KeyPair ops).downstream.filterMap
        (parseTLS X509KeyPair) : List Certificate)) ∧
    (((newListener cfg id address port).applyOps X509KeyPair ops).tlsConfig = none ↔
      ((newListener cfg id address port).applyOps X509KeyPair ops).downstream.filterMap
        (parseTLS X509KeyPair) = []) ∧
    (∀ now, (((newListener cfg id address port).applyOps X509KeyPair ops).update
        X509KeyPair now).downstream =
      ((newListener cfg id address port).applyOps X509KeyPair ops).downstream) ∧
    (∀ d now, parseTLS X509KeyPair d = none →
      d ∈ (((newListener cfg id address port).applyOps X509KeyPair ops).applyOp X509KeyPair
        (.insert d now)).downstream ∧
      (((newListener cfg id address port).applyOps X509KeyPair ops).applyOp X509KeyPair
          (.insert d now)).certificates =
        (deleteDownstream ((newListener cfg id address port).applyOps X509KeyPair ops).downstream
          d.id).filterMap (parseTLS X509KeyPair)) := by
  have h0 : tlsInSync X509KeyPair (newListener cfg id address port) := by
    simp [tlsInSync, newListener]
  have h := applyOps_tlsInSync X509KeyPair ops _ h0
  obtain ⟨h1, h2⟩ := tlsInSync_certificates X509KeyPair _ h
  refine ⟨by rw [h1], h2, fun now => rfl, ?_⟩
  intro d now hd
  have hs := applyOp_tlsInSync X509KeyPair
    ((newListener cfg id address port).applyOps X509KeyPair ops) (.insert d now)
  obtain ⟨g1, _⟩ := tlsInSync_certificates X509KeyPair _ hs
  constructor
  · simp [upstreamListener.applyOp, (update_tlsConfig X509KeyPair now _).2, insertDownstream]
  · rw [g1]
    simp only [upstreamListener.applyOp, (update_tlsConfig X509KeyPair now _).2,
      insertDownstream, List.filterMap_append, List.filterMap_cons, hd, List.filterMap_nil,
      List.append_nil]

/-! ## `routeHTTP`: the streams of one connection -/

/-- C14 (at most one outbound stream per HTTP connection), evaluation at the
failing input: one worker (session 1) takes every request, and two requests
arrive on one inbound connection.  For the second request `d.session` equals
`lastSession`, so the stream of the first request is not closed, and
`OpenStream` is called all the same: when the loop has served the two
requests both streams are open, and after `routeHTTP` has returned and its
deferred function has closed `lastStream`, the stream of the first request is
still open; with three requests two streams stay open.  When consecutive
requests go to different sessions the old stream is closed first, and one
stream is open. -/
theorem same_session_streams_accumulate
    (X509KeyPair : GoString → GoString → Option Certificate) :
    (routeHTTPLoop X509KeyPair okExchange 1 [sampleRequest, sampleRequest]
        ⟨catchAllListener, idleYamux, 0, none, none, []⟩).yamux.streams = [⟨0, 1⟩, ⟨1, 1⟩] ∧
      (routeHTTPLoop X509KeyPair okExchange 1 [sampleRequest, sampleRequest]
        ⟨catchAllListener, idleYamux, 0, none, none, []⟩).written.length = 2 ∧
      (routeHTTP X509KeyPair okExchange 1 [sampleRequest, sampleRequest]
        ⟨catchAllListener, idleYamux, 0, none, none, []⟩).yamux.streams = [⟨0, 1⟩] ∧
      (routeHTTP X509KeyPair okExchange 1 [sampleRequest, sampleRequest, sampleRequest]
        ⟨catchAllListener, idleYamux, 0, none, none, []⟩).yamux.streams = [⟨0, 1⟩, ⟨1, 1⟩] ∧
      (routeHTTPLoop X509KeyPair okExchange 1 [⟨[97], [47, 97, 47]⟩, ⟨[97], [47, 98, 47]⟩]
        ⟨twoRoutes, idleYamux, 0, none, none, []⟩).yamux.streams = [⟨1, 2⟩] := by
  refine ⟨?_, ?_, ?_, ?_, ?_⟩ <;> rfl

/-! ## Registrations -/

theorem int64_eq (i : Int) (h1 : -2 ^ 63 ≤ i) (h2 : i < 2 ^ 63) : int64 i = i := by
  unfold int64
  omega

theorem modifyLast_map {β : Type} (p : upstreamListener → Bool)
    (f : upstreamListener → upstreamListener) (g : upstreamListener → β)
    (hg : ∀ u, g (f u) = g u) : ∀ l : List upstreamListener,
    (modifyLast p f l).map g = l.map g := by
  intro l
  induction l with
  | nil => rfl
  | cons u rest ih =>
    unfold modifyLast
    split
    · simp [ih]
    · split
      · simp [hg]
      · rfl

theorem modifyLast_mem (p : upstreamListener → Bool) (f : upstreamListener → upstreamListener) :
    ∀ (l : List upstreamListener) (v : upstreamListener), v ∈ modifyLast p f l →
      v ∈ l ∨ ∃ u ∈ l, v = f u := by
  intro l
  induction l with
  | nil => intro v h; simp [modifyLast] at h
  | cons u rest ih =>
    intro v h
    unfold modifyLast at h
    split at h
    · rcases List.mem_cons.mp h with rfl | h'
      · exact Or.inl (List.mem_cons_self _ _)
      · rcases ih v h' with h1 | ⟨w, hw, rfl⟩
        · exact Or.inl (List.mem_cons_of_mem _ h1)
        · exact Or.inr ⟨w, List.mem_cons_of_mem _ hw, rfl⟩
    · split at h
      · rcases List.mem_cons.mp h with rfl | h'
        · exact Or.inr ⟨u, List.mem_cons_self _ _, rfl⟩
        · exact Or.inl (List.mem_cons_of_mem _ h')
      · exact Or.inl h

theorem modifyLast_any (p : upstreamListener → Bool) (f : upstreamListener → upstreamListener) :
    ∀ (l : List upstreamListener), l.any p = true →
      ∃ u ∈ l, p u = true ∧ f u ∈ modifyLast p f l := by
  intro l
  induction l with
  | nil => intro h; simp at h
  | cons u rest ih =>
    intro h
    unfold modifyLast
    by_cases hr : rest.any p = true
    · obtain ⟨w, hw, hp, hin⟩ := ih hr
      simp only [hr, if_true]
      exact ⟨w, List.mem_cons_of_mem _ hw, hp, List.mem_cons_of_mem _ hin⟩
    · simp only [hr, if_false]
      have hu : p u = true := by
        simp only [List.any_cons, Bool.or_eq_true] at h
        rcases h with h | h
        · exact h
        · exact absurd h hr
      simp only [hu, if_true]
      exact ⟨u, List.mem_cons_self _ _, hu, List.mem_cons_self _ _⟩

theorem findUpstream_foldl (address : GoString) (port : Int) :
    ∀ (m : List upstreamListener) (acc : Option upstreamListener),
    (m.foldl (fun upstream u => if address = u.address ∧ port = u.port then some u else upstream)
        acc).isSome =
      (acc.isSome || m.any fun u => decide (address = u.address ∧ port = u.port)) := by
  intro m
  induction m with
  | nil => intro acc; simp
  | cons u rest ih =>
    intro acc
    simp only [List.foldl_cons, ih, List.any_cons]
    by_cases hm : address = u.address ∧ port = u.port
    · simp [hm]
    · simp [hm]

theorem findUpstream_isSome (address : GoString) (port : Int) (m : List upstreamListener) :
    (findUpstream address port m).isSome =
      m.any fun u => decide (address = u.address ∧ port = u.port) := by
  unfold findUpstream
  rw [findUpstream_foldl]
  simp

theorem register_fields (X509KeyPair : GoString → GoString → Option Certificate) (now : Time)
    (d : downstreamConnection) (u : upstreamListener) :
    (register X509KeyPair now d u).id = u.id ∧
      (register X509KeyPair now d u).address = u.address ∧
      (register X509KeyPair now d u).port = u.port ∧
      (register X509KeyPair now d u).downstream = insertDownstream u.downstream d :=
  ⟨rfl, rfl, rfl, rfl⟩

theorem mem_insertDownstream (m : List downstreamConnection) (d x : downstreamConnection)
    (h : x ∈ insertDownstream m d) : x ∈ m ∨ x = d := by
  unfold insertDownstream deleteDownstream at h
  rcases List.mem_append.mp h with h | h
  · exact Or.inl (List.mem_filter.mp h).1
  · exact Or.inr (List.mem_singleton.mp h)

theorem sweepListener_keeps (X509KeyPair : GoString → GoString → Option Certificate)
    (now : Time) (y : Yamux) (u : upstreamListener) :
    (sweepListener X509KeyPair now y u).1.id = u.id ∧
      (sweepListener X509KeyPair now y u).1.address = u.address ∧
      (sweepListener X509KeyPair now y u).1.port = u.port ∧
      ∀ d ∈ (sweepListener X509KeyPair now y u).1.downstream, d ∈ u.downstream := by
  unfold sweepListener evict
  rw [evict_foldl]
  simp only
  have hsub : ∀ d ∈ u.downstream.filter (fun x =>
      !(u.downstream.any fun d => y.IsClosed d.session && decide (d.id = x.id))),
      d ∈ u.downstream := fun d hd => (List.mem_filter.mp hd).1
  split <;> split <;> exact ⟨rfl, rfl, rfl, hsub⟩

theorem sweep_mem (X509KeyPair : GoString → GoString → Option Certificate) (now : Time)
    (y : Yamux) (s : Server) (v : upstreamListener)
    (hv : v ∈ (s.sweep X509KeyPair now y).server.upstream) :
    ∃ u ∈ s.upstream, v = (sweepListener X509KeyPair now y u).1 := by
  rw [(sweep_eq X509KeyPair now y s).1] at hv
  obtain ⟨hv1, _⟩ := List.mem_filter.mp hv
  obtain ⟨p, hp, rfl⟩ := List.mem_map.mp hv1
  obtain ⟨u, hu, rfl⟩ := List.mem_map.mp hp
  exact ⟨u, hu, rfl⟩

theorem sweep_endpoints (X509KeyPair : GoString → GoString → Option Certificate) (now : Time)
    (y : Yamux) (s : Server) :
    ((s.sweep X509KeyPair now y).server.endpoints).Sublist s.endpoints := by
  unfold Server.endpoints
  rw [(sweep_eq X509KeyPair now y s).1]
  have hmap : ((s.upstream.map (sweepListener X509KeyPair now y)).map fun v => v.1).map
      (fun u => (u.address, u.port)) = s.upstream.map fun u => (u.address, u.port) := by
    rw [List.map_map, List.map_map]
    apply List.map_congr_left
    intro u _
    obtain ⟨_, h2, h3, _⟩ := sweepListener_keeps X509KeyPair now y u
    simp [h2, h3]
  rw [← hmap]
  exact (List.filter_sublist _).map _
theorem handle_endpoints (X509KeyPair : GoString → GoString → Option Certificate) (s : Server)
    (h : Handshake) (hn : s.endpoints.Nodup) :
    (handleDownstreamConnection X509KeyPair s h).server.endpoints.Nodup := by
  unfold handleDownstreamConnection
  cases hreq : h.request with
  | none => exact hn
  | some req =>
    cases hses : h.session with
    | none => exact hn
    | some session =>
      simp only
      cases hf : findUpstream req.SocketDefinition.Address req.SocketDefinition.Port s.upstream with
      | none =>
        simp only
        cases hb : h.bind with
        | false => exact hn
        | true =>
          simp only [if_true, Server.endpoints, insertUpstream, List.map_append, List.map_cons,
            List.map_nil]
          have hany := findUpstream_isSome req.SocketDefinition.Address
            req.SocketDefinition.Port s.upstream
          rw [hf] at hany
          have hnone : ∀ u ∈ s.upstream, ¬ (req.SocketDefinition.Address = u.address ∧
              req.SocketDefinition.Port = u.port) := by
            intro u hu hm
            have : (s.upstream.any fun u => decide (req.SocketDefinition.Address = u.address ∧
                req.SocketDefinition.Port = u.port)) = true :=
              List.any_eq_true.mpr ⟨u, hu, by simpa using hm⟩
            rw [← hany] at this
            cases this
          have hsub : ((deleteUpstream s.upstream (int64 (s.nextID + 1))).map
              fun u => (u.address, u.port)).Sublist (s.upstream.map fun u => (u.address, u.port)) :=
            (List.filter_sublist _).map _
          rw [List.nodup_append]
          refine ⟨hn.sublist hsub, List.nodup_singleton _, ?_⟩
          intro e he1 he2
          rw [List.mem_singleton] at he2
          subst he2
          obtain ⟨u, hu, hue⟩ := List.mem_map.mp (hsub.subset he1)
          simp only [register_fields, newListener, Prod.mk.injEq] at hue
          exact hnone u hu ⟨hue.1.symm, hue.2.symm⟩
      | some found =>
        simp only [Server.endpoints]
        rw [modifyLast_map _ (register X509KeyPair h.now ⟨s.nextID, session, req.SocketDefinition⟩)
          (fun u => (u.address, u.port)) (fun u => rfl)]
        exact hn

theorem step_endpoints (X509KeyPair : GoString → GoString → Option Certificate) (b : Broker)
    (op : BrokerOp) (hn : b.server.endpoints.Nodup) :
    (b.step X509KeyPair op).server.endpoints.Nodup := by
  cases op with
  | handshake h => exact handle_endpoints X509KeyPair b.server h hn
  | sweep now y => exact hn.sublist (sweep_endpoints X509KeyPair now y b.server)
  | close => exact List.nodup_nil
  | acceptFailed id =>
    exact hn.sublist ((List.filter_sublist _).map _)

theorem run_endpoints (X509KeyPair : GoString → GoString → Option Certificate) :
    ∀ (ops : List BrokerOp) (b : Broker), b.server.endpoints.Nodup →
      (ops.foldl (Broker.step X509KeyPair) b).server.endpoints.Nodup := by
  intro ops
  induction ops with
  | nil => intro b h; exact h
  | cons op ops ih => intro b h; exact ih _ (step_endpoints X509KeyPair b op h)

theorem handle_existing (X509KeyPair : GoString → GoString → Option Certificate) (s : Server)
    (h : Handshake) (req : HandshakeRequest) (session : Session)
    (hreq : h.request = some req) (hses : h.session = some session)
    (hex : ∃ u ∈ s.upstream, u.address = req.SocketDefinition.Address ∧
      u.port = req.SocketDefinition.Port) :
    (handleDownstreamConnection X509KeyPair s h).listenerId = none ∧
      (handleDownstreamConnection X509KeyPair s h).workerId = some s.nextID ∧
      ((handleDownstreamConnection X509KeyPair s h).server.upstream.map
          fun u => (u.id, u.address, u.port)) =
        (s.upstream.map fun u => (u.id, u.address, u.port)) ∧
      ∃ u ∈ (handleDownstreamConnection X509KeyPair s h).server.upstream,
        u.address = req.SocketDefinition.Address ∧ u.port = req.SocketDefinition.Port ∧
          (⟨s.nextID, session, req.SocketDefinition⟩ : downstreamConnection) ∈ u.downstream := by
  have hany : (s.upstream.any fun u => decide (req.SocketDefinition.Address = u.address ∧
      req.SocketDefinition.Port = u.port)) = true := by
    obtain ⟨u, hu, h1, h2⟩ := hex
    exact List.any_eq_true.mpr ⟨u, hu, by simp [h1, h2]⟩
  have hsome := findUpstream_isSome req.SocketDefinition.Address req.SocketDefinition.Port
    s.upstream
  rw [hany] at hsome
  unfold handleDownstreamConnection
  simp only [hreq, hses]
  cases hf : findUpstream req.SocketDefinition.Address req.SocketDefinition.Port s.upstream with
  | none => rw [hf] at hsome; cases hsome
  | some found =>
    simp only
    refine ⟨trivial, trivial, ?_, ?_⟩
    · exact modifyLast_map _ (register X509KeyPair h.now ⟨s.nextID, session, req.SocketDefinition⟩)
        (fun u => (u.id, u.address, u.port)) (fun u => rfl) _
    · obtain ⟨u, _, hp, hin⟩ := modifyLast_any
        (fun u => decide (req.SocketDefinition.Address = u.address ∧
          req.SocketDefinition.Port = u.port))
        (register X509KeyPair h.now ⟨s.nextID, session, req.SocketDefinition⟩) s.upstream hany
      simp only [decide_eq_true_eq] at hp
      refine ⟨_, hin, hp.1.symm, hp.2.symm, ?_⟩
      simp [register_fields, insertDownstream]

/-- C15 (unique endpoints): after every sequence of registrations, reaper
ticks, broker closes and ended accept loops, starting from `New`, no two
listeners of the index have the same (address, port); and a registration for
an endpoint that has a listener in the index gives out no listener id, leaves
the ids and endpoints of the index as they were, and puts the worker into the
registry of a listener of that endpoint, whether or not a bind would
succeed. -/
theorem unique_endpoints (X509KeyPair : GoString → GoString → Option Certificate)
    (cfg : Config) (ops : List BrokerOp) :
    ((Broker.run X509KeyPair cfg ops).server.upstream.map fun u => (u.address, u.port)).Nodup ∧
      ∀ (h : Handshake) (req : HandshakeRequest) (session : Session),
        h.request = some req → h.session = some session →
        (∃ u ∈ (Broker.run X509KeyPair cfg ops).server.upstream,
          u.address = req.SocketDefinition.Address ∧ u.port = req.SocketDefinition.Port) →
        (handleDownstreamConnection X509KeyPair (Broker.run X509KeyPair cfg ops).server
            h).listenerId = none ∧
          ((handleDownstreamConnection X509KeyPair (Broker.run X509KeyPair cfg ops).server
              h).server.upstream.map fun u => (u.id, u.address, u.port)) =
            ((Broker.run X509KeyPair cfg ops).server.upstream.map
              fun u => (u.id, u.address, u.port)) ∧
          ∃ u ∈ (handleDownstreamConnection X509KeyPair (Broker.run X509KeyPair cfg ops).server
              h).server.upstream,
            u.address = req.SocketDefinition.Address ∧ u.port = req.SocketDefinition.Port ∧
              (⟨(Broker.run X509KeyPair cfg ops).server.nextID, session, req.SocketDefinition⟩ :
                downstreamConnection) ∈ u.downstream := by
  constructor
  · exact run_endpoints X509KeyPair ops ⟨New cfg, [], []⟩ List.nodup_nil
  · intro h req session hreq hses hex
    obtain ⟨h1, _, h3, h4⟩ := handle_existing X509KeyPair _ h req session hreq hses hex
    exact ⟨h1, h3, h4⟩

theorem handle_cases (X509KeyPair : GoString → GoString → Option Certificate) (s : Server)
    (h : Handshake) :
    handleDownstreamConnection X509KeyPair s h = ⟨s, none, none, none⟩ ∨
      (∃ d : downstreamConnection, d.id = s.nextID ∧
        (handleDownstreamConnection X509KeyPair s h).workerId = some s.nextID ∧
        (handleDownstreamConnection X509KeyPair s h).listenerId = none ∧
        (handleDownstreamConnection X509KeyPair s h).server.nextID = int64 (s.nextID + 1) ∧
        ∀ u ∈ (handleDownstreamConnection X509KeyPair s h).server.upstream,
          u ∈ s.upstream ∨ ∃ w ∈ s.upstream, u = register X509KeyPair h.now d w) ∨
      (∃ (d : downstreamConnection) (w : upstreamListener), d.id = s.nextID ∧
        w.id = int64 (s.nextID + 1) ∧ w.downstream = [] ∧
        (handleDownstreamConnection X509KeyPair s h).workerId = some s.nextID ∧
        (handleDownstreamConnection X509KeyPair s h).listenerId = some (int64 (s.nextID + 1)) ∧
        (handleDownstreamConnection X509KeyPair s h).server.nextID =
          int64 (int64 (s.nextID + 1) + 1) ∧
        ∀ u ∈ (handleDownstreamConnection X509KeyPair s h).server.upstream,
          u ∈ s.upstream ∨ u = register X509KeyPair h.now d w) := by
  unfold handleDownstreamConnection
  cases hreq : h.request with
  | none => exact Or.inl rfl
  | some req =>
    cases hses : h.session with
    | none => exact Or.inl rfl
    | some session =>
      simp only
      cases hf : findUpstream req.SocketDefinition.Address req.SocketDefinition.Port s.upstream with
      | none =>
        simp only
        cases hb : h.bind with
        | false =>
          refine Or.inr (Or.inl ⟨⟨s.nextID, session, req.SocketDefinition⟩, rfl, rfl, rfl, rfl, ?_⟩)
          intro u hu
          exact Or.inl hu
        | true =>
          refine Or.inr (Or.inr ⟨⟨s.nextID, session, req.SocketDefinition⟩,
            newListener s.config (int64 (s.nextID + 1)) req.SocketDefinition.Address
              req.SocketDefinition.Port, rfl, rfl, rfl, rfl, rfl, rfl, ?_⟩)
          intro u hu
          simp only [if_true, insertUpstream, deleteUpstream] at hu
          rcases List.mem_append.mp hu with hu | hu
          · exact Or.inl (List.mem_filter.mp hu).1
          · exact Or.inr (List.mem_singleton.mp hu)
      | some found =>
        refine Or.inr (Or.inl ⟨⟨s.nextID, session, req.SocketDefinition⟩, rfl, rfl, rfl, rfl, ?_⟩)
        intro u hu
        exact modifyLast_mem _ _ _ u hu

theorem handle_Inv (X509KeyPair : GoString → GoString → Option Certificate) (b : Broker)
    (h : Handshake) (n : Nat) (hn : n + 1 < 2 ^ 62) (hI : b.Inv n) :
    (b.step X509KeyPair (.handshake h)).Inv (n + 1) := by
  obtain ⟨i1, i2, i3, i4, i5, i6, i7⟩ := hI
  have e1 : int64 (b.server.nextID + 1) = b.server.nextID + 1 := by
    apply int64_eq <;> omega
  have e2 : int64 (b.server.nextID + 1 + 1) = b.server.nextID + 1 + 1 := by
    apply int64_eq <;> omega
  have hw3 : ∀ i ∈ b.workerIds ++ [b.server.nextID], i < b.server.nextID + 1 := by
    intro i hi
    rcases List.mem_append.mp hi with hi | hi
    · have := i3 i hi; omega
    · rw [List.mem_singleton] at hi; omega
  have hw5 : (b.workerIds ++ [b.server.nextID]).Pairwise (fun i j => i < j) := by
    rw [List.pairwise_append]
    refine ⟨i5, List.pairwise_singleton _ _, ?_⟩
    intro i hi j hj
    rw [List.mem_singleton] at hj
    subst hj
    exact i3 i hi
  have hw6 : ∀ i ∈ b.workerIds ++ [b.server.nextID], i ∉ b.listenerIds := by
    intro i hi
    rcases List.mem_append.mp hi with hi | hi
    · exact i6 i hi
    · rw [List.mem_singleton] at hi
      subst hi
      intro hl
      have := i4 _ hl
      omega
  show Broker.Inv ⟨(handleDownstreamConnection X509KeyPair b.server h).server,
      b.workerIds ++ (handleDownstreamConnection X509KeyPair b.server h).workerId.toList,
      b.listenerIds ++ (handleDownstreamConnection X509KeyPair b.server h).listenerId.toList⟩
    (n + 1)
  rcases handle_cases X509KeyPair b.server h with hr | ⟨d, hd, hw, hl, hnx, hup⟩ |
    ⟨d, w, hd, hwid, hwd, hw, hl, hnx, hup⟩
  · rw [hr]
    simp only [Option.toList, List.append_nil]
    exact ⟨i1, by push_cast; omega, i3, i4, i5, i6, i7⟩
  · unfold Broker.Inv
    rw [hw, hl, hnx, e1]
    simp only [Option.toList, List.append_nil]
    refine ⟨by omega, by push_cast; omega, hw3, ?_, hw5, hw6, ?_⟩
    · intro i hi
      have := i4 i hi
      omega
    · intro u hu
      rcases hup u hu with hu | ⟨v, hv, rfl⟩
      · obtain ⟨h1, h2⟩ := i7 u hu
        exact ⟨h1, fun x hx => List.mem_append_left _ (h2 x hx)⟩
      · obtain ⟨h1, h2⟩ := i7 v hv
        refine ⟨by simpa [register_fields] using h1, ?_⟩
        intro x hx
        simp only [register_fields] at hx
        rcases mem_insertDownstream _ _ _ hx with hx | hx
        · exact List.mem_append_left _ (h2 x hx)
        · subst hx
          rw [hd]
          simp
  · unfold Broker.Inv
    rw [hw, hl, hnx, e1, e2]
    simp only [Option.toList]
    refine ⟨by omega, by push_cast; omega, ?_, ?_, hw5, ?_, ?_⟩
    · intro i hi
      have := hw3 i hi
      omega
    · intro i hi
      rcases List.mem_append.mp hi with hi | hi
      · have := i4 i hi; omega
      · rw [List.mem_singleton] at hi
        omega
    · intro i hi hl'
      rcases List.mem_append.mp hl' with hl' | hl'
      · exact hw6 i hi hl'
      · rw [List.mem_singleton] at hl'
        have := hw3 i hi
        omega
    · intro u hu
      rcases hup u hu with hu | rfl
      · obtain ⟨h1, h2⟩ := i7 u hu
        exact ⟨List.mem_append_left _ h1, fun x hx => List.mem_append_left _ (h2 x hx)⟩
      · refine ⟨List.mem_append_right _ (by simp [register_fields, hwid, e1]), ?_⟩
        intro x hx
        simp only [register_fields, hwd] at hx
        rcases mem_insertDownstream _ _ _ hx with hx | hx
        · simp at hx
        · subst hx
          rw [hd]
          simp

theorem step_Inv (X509KeyPair : GoString → GoString → Option Certificate) (b : Broker)
    (op : BrokerOp) (n : Nat) (hn : n + 1 < 2 ^ 62) (hI : b.Inv n) :
    (b.step X509KeyPair op).Inv (n + 1) := by
  cases op with
  | handshake h => exact handle_Inv X509KeyPair b h n hn hI
  | sweep now y =>
    obtain ⟨i1, i2, i3, i4, i5, i6, i7⟩ := hI
    refine ⟨i1, ?_, i3, i4, i5, i6, ?_⟩
    · show b.server.nextID ≤ 1 + 2 * ((n + 1 : Nat) : Int)
      push_cast; omega
    · intro v hv
      obtain ⟨u, hu, rfl⟩ := sweep_mem X509KeyPair now y b.server v hv
      obtain ⟨k1, _, _, k4⟩ := sweepListener_keeps X509KeyPair now y u
      obtain ⟨h1, h2⟩ := i7 u hu
      exact ⟨by rw [k1]; exact h1, fun d hd => h2 d (k4 d hd)⟩
  | close =>
    obtain ⟨i1, i2, i3, i4, i5, i6, _⟩ := hI
    refine ⟨i1, ?_, i3, i4, i5, i6, ?_⟩
    · show b.server.nextID ≤ 1 + 2 * ((n + 1 : Nat) : Int)
      push_cast; omega
    · intro v hv
      simp [Broker.step, Server.Close] at hv
  | acceptFailed id =>
    obtain ⟨i1, i2, i3, i4, i5, i6, i7⟩ := hI
    refine ⟨i1, ?_, i3, i4, i5, i6, ?_⟩
    · show b.server.nextID ≤ 1 + 2 * ((n + 1 : Nat) : Int)
      push_cast; omega
    · intro v hv
      exact i7 v (List.mem_filter.mp hv).1

theorem run_Inv (X509KeyPair : GoString → GoString → Option Certificate) :
    ∀ (ops : List BrokerOp) (b : Broker) (n : Nat), n + ops.length < 2 ^ 62 → b.Inv n →
      (ops.foldl (Broker.step X509KeyPair) b).Inv (n + ops.length) := by
  intro ops
  induction ops with
  | nil => intro b n _ h; exact h
  | cons op ops ih =>
    intro b n hn h
    simp only [List.length_cons] at hn
    have := ih (b.step X509KeyPair op) (n + 1) (by omega)
      (step_Inv X509KeyPair b op n (by omega) h)
    simp only [List.foldl_cons, List.length_cons]
    rw [show n + (ops.length + 1) = n + 1 + ops.length by omega]
    exact this

/-- C16 (unique session ids): after every sequence of fewer than `2 ^ 62`
steps of the broker (handshakes whose bind succeeds, fails or is not needed,
rejected handshakes, reaper ticks, closes), starting from `New`, the ids given
to worker sessions are strictly increasing in the order of registration and
therefore pairwise distinct, every id given out and every id in the index or
in a registry is smaller than `nextID`, every worker id in a registry and
every listener id in the index was given out by the counter, and no id given
to a worker session was given to a listener.  The bound on the number of
steps keeps the `int64` counter from running over. -/
theorem unique_session_ids (X509KeyPair : GoString → GoString → Option Certificate)
    (cfg : Config) (ops : List BrokerOp) (hlen : ops.length < 2 ^ 62) :
    (Broker.run X509KeyPair cfg ops).workerIds.Pairwise (fun i j => i < j) ∧
      (Broker.run X509KeyPair cfg ops).workerIds.Nodup ∧
      (∀ i ∈ (Broker.run X509KeyPair cfg ops).workerIds,
        i < (Broker.run X509KeyPair cfg ops).server.nextID) ∧
      (∀ i ∈ (Broker.run X509KeyPair cfg ops).listenerIds,
        i < (Broker.run X509KeyPair cfg ops).server.nextID) ∧
      (∀ u ∈ (Broker.run X509KeyPair cfg ops).server.upstream,
        u.id ∈ (Broker.run X509KeyPair cfg ops).listenerIds ∧
        u.id < (Broker.run X509KeyPair cfg ops).server.nextID ∧
        ∀ d ∈ u.downstream,
          d.id ∈ (Broker.run X509KeyPair cfg ops).workerIds ∧
          d.id < (Broker.run X509KeyPair cfg ops).server.nextID ∧
          ∀ v ∈ (Broker.run X509KeyPair cfg ops).server.upstream, d.id ≠ v.id) ∧
      (∀ i ∈ (Broker.run X509KeyPair cfg ops).workerIds,
        i ∉ (Broker.run X509KeyPair cfg ops).listenerIds) := by
  have h0 : (⟨New cfg, [], []⟩ : Broker).Inv 0 := by
    refine ⟨by simp [New], by simp [New], ?_, ?_, List.Pairwise.nil, ?_, ?_⟩ <;>
      intro x hx <;> simp [New] at hx
  have h := run_Inv X509KeyPair ops ⟨New cfg, [], []⟩ 0 (by omega) h0
  obtain ⟨_, _, i3, i4, i5, i6, i7⟩ := h
  refine ⟨i5, ?_, i3, i4, ?_, i6⟩
  · exact i5.imp (fun hlt => ne_of_lt hlt)
  · intro u hu
    obtain ⟨h1, h2⟩ := i7 u hu
    refine ⟨h1, i4 _ h1, ?_⟩
    intro d hd
    refine ⟨h2 d hd, i3 _ (h2 d hd), ?_⟩
    intro v hv he
    exact i6 _ (h2 d hd) (he ▸ (i7 v hv).1)

theorem unique_session_ids_witness :
    sampleOps.length < 2 ^ 62 ∧
    ((Broker.run (fun _ _ => none) DefaultConfig sampleOps).workerIds.Pairwise
        (fun i j => i < j) ∧
      (Broker.run (fun _ _ => none) DefaultConfig sampleOps).workerIds.Nodup ∧
      (∀ i ∈ (Broker.run (fun _ _ => none) DefaultConfig sampleOps).workerIds,
        i < (Broker.run (fun _ _ => none) DefaultConfig sampleOps).server.nextID) ∧
      (∀ i ∈ (Broker.run (fun _ _ => none) DefaultConfig sampleOps).listenerIds,
        i < (Broker.run (fun _ _ => none) DefaultConfig sampleOps).server.nextID) ∧
      (∀ u ∈ (Broker.run (fun _ _ => none) DefaultConfig sampleOps).server.upstream,
        u.id ∈ (Broker.run (fun _ _ => none) DefaultConfig sampleOps).listenerIds ∧
        u.id < (Broker.run (fun _ _ => none) DefaultConfig sampleOps).server.nextID ∧
        ∀ d ∈ u.downstream,
          d.id ∈ (Broker.run (fun _ _ => none) DefaultConfig sampleOps).workerIds ∧
          d.id < (Broker.run (fun _ _ => none) DefaultConfig sampleOps).server.nextID ∧
          ∀ v ∈ (Broker.run (fun _ _ => none) DefaultConfig sampleOps).server.upstream,
            d.id ≠ v.id) ∧
      (∀ i ∈ (Broker.run (fun _ _ => none) DefaultConfig sampleOps).workerIds,
        i ∉ (Broker.run (fun _ _ => none) DefaultConfig sampleOps).listenerIds)) :=
  ⟨by decide, unique_session_ids (fun _ _ => none) DefaultConfig sampleOps (by decide)⟩

end Socketmaster
